import Mathlib

/-!
# Verification of the chimera conversation-orchestration engine

A shallow embedding, in Lean 4, of the core services of the repository:

* `TurnManager` (`backend/app/services/turn_manager.py`)
* `ResponseCache` (`backend/app/services/response_cache.py`)
* `WebSocketManager` (`backend/app/services/websocket_manager.py`)
* `ConversationOrchestrator` (`backend/app/services/conversation_orchestrator.py`)

Python `float` values that only serve as ordered timestamps or random draws
are modelled as rationals (`ℚ`); Python dictionaries are modelled as
insertion-ordered association lists, matching CPython's ordered-dict
semantics; `redis` (which in this code base transparently falls back to an
in-process dictionary, see `core/redis_client.py`) is modelled as a key/value
map.  `async` functions are modelled as pure state-passing functions: every
claim treated here is about a single task's sequential behaviour.
-/

namespace Chimera

instance {ε α : Type} [DecidableEq ε] [DecidableEq α] : DecidableEq (Except ε α) := fun x y =>
  match x, y with
  | .ok a, .ok b => decidable_of_iff (a = b) (by simp)
  | .ok _, .error _ => isFalse (by simp)
  | .error _, .ok _ => isFalse (by simp)
  | .error e, .error f => decidable_of_iff (e = f) (by simp)

/-! ## Association lists (ordered dictionaries)

Python `dict` keeps insertion order; `alSet` replaces in place or appends,
`alErase` is `pop`, `alGet` is subscript/`get`. -/

def alGet {α β : Type} [DecidableEq α] : List (α × β) → α → Option β
  | [], _ => none
  | (k, v) :: rest, a => if k = a then some v else alGet rest a

def alSet {α β : Type} [DecidableEq α] : List (α × β) → α → β → List (α × β)
  | [], a, b => [(a, b)]
  | (k, v) :: rest, a, b =>
      if k = a then (k, b) :: rest else (k, v) :: alSet rest a b

def alErase {α β : Type} [DecidableEq α] : List (α × β) → α → List (α × β)
  | [], _ => []
  | (k, v) :: rest, a => if k = a then rest else (k, v) :: alErase rest a

theorem alGet_alSet_self {α β : Type} [DecidableEq α]
    (l : List (α × β)) (a : α) (b : β) : alGet (alSet l a b) a = some b := by
  induction l with
  | nil => simp [alSet, alGet]
  | cons kv rest ih =>
      obtain ⟨k, v⟩ := kv
      by_cases h : k = a <;> simp [alSet, alGet, h, ih]

theorem alGet_alSet_ne {α β : Type} [DecidableEq α]
    (l : List (α × β)) (a a' : α) (b : β) (h : a ≠ a') :
    alGet (alSet l a b) a' = alGet l a' := by
  induction l with
  | nil => simp [alSet, alGet, h]
  | cons kv rest ih =>
      obtain ⟨k, v⟩ := kv
      by_cases hk : k = a
      · subst hk; simp [alSet, alGet, h, ih]
      · by_cases hk' : k = a' <;> simp [alSet, alGet, hk, hk', ih, Ne.symm h]

theorem alSet_same {α β : Type} [DecidableEq α]
    (l : List (α × β)) (a : α) (b : β) (h : alGet l a = some b) :
    alSet l a b = l := by
  induction l with
  | nil => simp [alGet] at h
  | cons kv rest ih =>
      obtain ⟨k, v⟩ := kv
      by_cases hk : k = a
      · subst hk
        simp [alGet] at h
        simp [alSet, h]
      · simp [alGet, hk] at h
        simp [alSet, hk, ih h]

theorem alSet_alSet {α β : Type} [DecidableEq α]
    (l : List (α × β)) (a : α) (b b' : β) :
    alSet (alSet l a b) a b' = alSet l a b' := by
  induction l with
  | nil => simp [alSet]
  | cons kv rest ih =>
      obtain ⟨k, v⟩ := kv
      by_cases hk : k = a <;> simp [alSet, hk, ih]

/-! ## TurnManager (`turn_manager.py`)

Conversation state is the JSON dictionary stored both in
`self.active_conversations` (local cache) and in redis under key
`conversation:{id}:state`; we keep the raw conversation id as the redis key
(the real key is obtained by wrapping it in a fixed prefix/suffix, which is
injective in the id).  TTL expiry of the redis entry is not modelled: no
claim treated here spans the 1-hour expiry. -/

structure ConvState where
  participants : List String
  current_turn : Nat
  is_active : Bool
  last_speaker : Option String
  deriving DecidableEq, Repr

structure TurnManager where
  /-- `self.active_conversations` -/
  localState : List (String × ConvState)
  /-- redis keys `conversation:{id}:state` (JSON round-trip elided) -/
  redisState : List (String × ConvState)
  deriving DecidableEq, Repr

def TurnManager.empty : TurnManager := ⟨[], []⟩

/-- `TurnManager._get_conversation_state`: local cache first, then redis;
a redis hit is cached into `active_conversations` (so the returned dict is
aliased by the local cache — mutations of it are visible there). -/
def getConversationState (tm : TurnManager) (id : String) :
    Option ConvState × TurnManager :=
  match alGet tm.localState id with
  | some st => (some st, tm)
  | none =>
      match alGet tm.redisState id with
      | some st => (some st, { tm with localState := alSet tm.localState id st })
      | none => (none, tm)

/-- The value `_get_conversation_state` would return, without the caching
side effect. -/
def stateView (tm : TurnManager) (id : String) : Option ConvState :=
  match alGet tm.localState id with
  | some st => some st
  | none => alGet tm.redisState id

/-- `TurnManager.start_conversation`: unconditionally installs a fresh state
(participants as given, turn 0, active, no last speaker) in both the local
cache and redis.  Note: the source performs no validation of
`participants`. -/
def start_conversation (tm : TurnManager) (id : String)
    (participants : List String) : TurnManager :=
  let st : ConvState :=
    { participants := participants
      current_turn := 0
      is_active := true
      last_speaker := none }
  { localState := alSet tm.localState id st
    redisState := alSet tm.redisState id st }

/-- The hard-coded weight table of `get_next_speaker`
(`philosopher: 0.3, comedian: 0.4, scientist: 0.3`, default `1.0`). -/
def speakerWeight (s : String) : ℚ :=
  if s = "philosopher" then 3/10
  else if s = "comedian" then 4/10
  else if s = "scientist" then 3/10
  else 1

/-- The prefix-sum scan of `get_next_speaker`: walk the available speakers
accumulating `current_weight`, returning the first one with
`r ≤ current_weight`. -/
def pickWeighted (r : ℚ) (acc : ℚ) : List String → Option String
  | [] => none
  | s :: rest =>
      let acc' := acc + speakerWeight s
      if r ≤ acc' then some s else pickWeighted r acc' rest

/-- Lines 41–45 of `get_next_speaker`: `available_speakers` is the
participant list minus the last speaker, or the full list if that filter
comes out empty. -/
def availableSpeakers (st : ConvState) : List String :=
  let available0 := st.participants.filter (fun p => some p ≠ st.last_speaker)
  if available0.isEmpty then st.participants else available0

/-- `TurnManager.get_next_speaker`.  `u` is the value drawn by
`random.random()` (so `0 ≤ u < 1` in any real run) and `j` chooses the index
used by the final `random.choice` fallback; `random.choice([])` raises
`IndexError`, modelled as `.error ()`. -/
def get_next_speaker (tm : TurnManager) (id : String) (u : ℚ) (j : Nat) :
    Except Unit (Option String) × TurnManager :=
  match getConversationState tm id with
  | (none, tm') => (.ok none, tm')
  | (some st, tm') =>
      if st.is_active = false then (.ok none, tm')
      else
        let available := availableSpeakers st
        let total := (available.map speakerWeight).sum
        let r := u * total
        match pickWeighted r 0 available with
        | some s => (.ok (some s), tm')
        | none =>
            match available.get? (j % available.length) with
            | some s => (.ok (some s), tm')
            | none => (.error (), tm')

/-- `TurnManager.update_last_speaker`: if the state exists, set
`last_speaker`, increment `current_turn`, write the (aliased) dict back to
the local cache and to redis. -/
def update_last_speaker (tm : TurnManager) (id : String) (speaker : String) :
    TurnManager :=
  match getConversationState tm id with
  | (none, tm') => tm'
  | (some st, tm') =>
      let st' := { st with last_speaker := some speaker
                           current_turn := st.current_turn + 1 }
      { localState := alSet tm'.localState id st'
        redisState := alSet tm'.redisState id st' }

/-- Lines 91–99 of `stop_conversation`: re-read the state (local first, else
redis, caching the aliased dict into the local map), flip `is_active` on it
and write it back to redis; through aliasing the cached local dict is the
same mutated object. -/
def stopPhase2 (tm1 : TurnManager) (id : String) : TurnManager :=
  match getConversationState tm1 id with
  | (none, tm2) => tm2
  | (some st, tm2) =>
      let st' := { st with is_active := false }
      { localState := alSet tm2.localState id st'
        redisState := alSet tm2.redisState id st' }

/-- `TurnManager.stop_conversation`: first flips `is_active` in the local
cache if present (lines 88–89), then runs the redis update phase. -/
def stop_conversation (tm : TurnManager) (id : String) : TurnManager :=
  let tm1 :=
    match alGet tm.localState id with
    | some st =>
        { tm with localState := alSet tm.localState id { st with is_active := false } }
    | none => tm
  stopPhase2 tm1 id

/-! ### TurnManager lemmas -/

theorem getConversationState_fst (tm : TurnManager) (id : String) :
    (getConversationState tm id).1 = stateView tm id := by
  unfold getConversationState stateView
  cases alGet tm.localState id <;> [skip; rfl]
  cases alGet tm.redisState id <;> rfl

theorem stateView_getConversationState_snd (tm : TurnManager) (id id' : String) :
    stateView (getConversationState tm id).2 id' = stateView tm id' := by
  unfold getConversationState
  cases hl : alGet tm.localState id with
  | some st => rfl
  | none =>
      cases hr : alGet tm.redisState id with
      | none => rfl
      | some st =>
          by_cases h : id = id'
          · subst h
            simp [stateView, alGet_alSet_self, hl, hr]
          · simp [stateView, alGet_alSet_ne _ _ _ _ h]

theorem pickWeighted_mem (r acc : ℚ) (l : List String) (s : String)
    (h : pickWeighted r acc l = some s) : s ∈ l := by
  induction l generalizing acc with
  | nil => simp [pickWeighted] at h
  | cons a t ih =>
      unfold pickWeighted at h
      by_cases hc : r ≤ acc + speakerWeight a
      · simp [hc] at h
        simp [h]
      · simp [hc] at h
        exact List.mem_cons_of_mem _ (ih _ h)

/-- Whatever `get_next_speaker` returns (when it returns a speaker) is a
member of the `available_speakers` list it computed. -/
theorem next_speaker_mem_available (tm : TurnManager) (id : String) (u : ℚ) (j : Nat)
    (st : ConvState) (hst : stateView tm id = some st) (s : String)
    (hres : (get_next_speaker tm id u j).1 = .ok (some s)) :
    st.is_active = true ∧ s ∈ availableSpeakers st := by
  have hfst : (getConversationState tm id).1 = some st := by
    rw [getConversationState_fst, hst]
  unfold get_next_speaker at hres
  rcases hcs : getConversationState tm id with ⟨st?, tm'⟩
  rw [hcs] at hres hfst
  simp at hfst
  subst hfst
  simp only at hres
  by_cases hact : st.is_active = false
  · simp [hact] at hres
  · have hact' : st.is_active = true := by
      cases h : st.is_active
      · exact absurd h hact
      · rfl
    refine ⟨hact', ?_⟩
    simp only [hact, if_false] at hres
    cases hpick : pickWeighted (u * ((availableSpeakers st).map speakerWeight).sum) 0
        (availableSpeakers st) with
    | some s' =>
        rw [hpick] at hres
        simp at hres
        subst hres
        exact pickWeighted_mem _ _ _ _ hpick
    | none =>
        rw [hpick] at hres
        cases hget : (availableSpeakers st).get? (j % (availableSpeakers st).length) with
        | some s' =>
            rw [hget] at hres
            simp at hres
            subst hres
            exact List.get?_mem hget
        | none => rw [hget] at hres; simp at hres

/-- C3: with at least two distinct participants, the filtered
`available_speakers` list is non-empty, so the selection never falls back to
the full participant list and the result avoids `last_speaker`. -/
theorem filter_ne_last_nonempty (parts : List String) (l : String)
    (hnd : parts.Nodup) (hlen : 2 ≤ parts.length) :
    (parts.filter (fun p => some p ≠ some l)).isEmpty = false := by
  match parts, hlen with
  | a :: b :: t, _ =>
      have hab : a ≠ b := by
        have := hnd
        simp [List.nodup_cons] at this
        exact fun h => this.1.1 (h ▸ rfl)
      by_cases hal : a = l
      · have hbl : b ≠ l := fun h => hab (hal.trans h.symm)
        have : b ∈ (a :: b :: t).filter (fun p => some p ≠ some l) := by
          simp [List.mem_filter, hbl]
        rcases hfe : ((a :: b :: t).filter (fun p => some p ≠ some l)).isEmpty with _ | _
        · rfl
        · rw [List.isEmpty_iff] at hfe
          rw [hfe] at this
          simp at this
      · have : a ∈ (a :: b :: t).filter (fun p => some p ≠ some l) := by
          simp [List.mem_filter, hal]
        rcases hfe : ((a :: b :: t).filter (fun p => some p ≠ some l)).isEmpty with _ | _
        · rfl
        · rw [List.isEmpty_iff] at hfe
          rw [hfe] at this
          simp at this

/-- C3: for a conversation state with a non-empty list of distinct
participants of length ≥ 2, `get_next_speaker` never returns the recorded
`last_speaker`. -/
theorem next_speaker_avoids_last (tm : TurnManager) (id : String) (u : ℚ) (j : Nat)
    (st : ConvState) (hst : stateView tm id = some st)
    (hnd : st.participants.Nodup) (hlen : 2 ≤ st.participants.length)
    (s : String) (hres : (get_next_speaker tm id u j).1 = .ok (some s)) :
    some s ≠ st.last_speaker := by
  obtain ⟨-, hmem⟩ := next_speaker_mem_available tm id u j st hst s hres
  cases hlast : st.last_speaker with
  | none =>
      intro h
      exact Option.noConfusion h
  | some l =>
      have hne : (st.participants.filter (fun p => some p ≠ some l)).isEmpty = false :=
        filter_ne_last_nonempty st.participants l hnd hlen
      simp only [availableSpeakers, hlast, hne, Bool.false_eq_true, if_false] at hmem
      have := List.of_mem_filter hmem
      simpa using this

/-! #### C8: stop is terminal -/

/-- The per-conversation "stopped or absent" invariant. -/
def StoppedFor (tm : TurnManager) (id : String) : Prop :=
  ∀ st, stateView tm id = some st → st.is_active = false

theorem stopPhase2_stopped (tm1 : TurnManager) (id : String) :
    StoppedFor (stopPhase2 tm1 id) id := by
  intro st hst
  unfold stopPhase2 at hst
  rcases hcs : getConversationState tm1 id with ⟨st?, tm2⟩
  rw [hcs] at hst
  cases st? with
  | none =>
      simp only at hst
      have h1 : (getConversationState tm1 id).1 = none := by rw [hcs]
      rw [getConversationState_fst] at h1
      have h2 : stateView tm2 id = none := by
        have := stateView_getConversationState_snd tm1 id id
        rw [hcs] at this
        simpa [h1] using this
      rw [h2] at hst
      exact Option.noConfusion hst
  | some st0 =>
      simp only [stateView, alGet_alSet_self] at hst
      cases hst
      rfl

theorem stop_conversation_stopped (tm : TurnManager) (id : String) :
    StoppedFor (stop_conversation tm id) id := by
  unfold stop_conversation
  exact stopPhase2_stopped _ id

theorem get_next_speaker_snd (tm : TurnManager) (id : String) (u : ℚ) (j : Nat) :
    (get_next_speaker tm id u j).2 = (getConversationState tm id).2 := by
  unfold get_next_speaker
  rcases hcs : getConversationState tm id with ⟨st?, tm'⟩
  cases st? with
  | none => rfl
  | some st =>
      by_cases hact : st.is_active = false
      · simp [hact]
      · simp only [hact, if_false]
        cases pickWeighted _ 0 _ with
        | some s => rfl
        | none =>
            cases List.get? _ _ with
            | some s => rfl
            | none => rfl

theorem stateView_next_speaker (tm : TurnManager) (cid : String) (u : ℚ) (j : Nat)
    (id : String) :
    stateView (get_next_speaker tm cid u j).2 id = stateView tm id := by
  rw [get_next_speaker_snd, stateView_getConversationState_snd]

theorem stopped_next_none (tm : TurnManager) (id : String) (u : ℚ) (j : Nat)
    (h : StoppedFor tm id) : (get_next_speaker tm id u j).1 = .ok none := by
  unfold get_next_speaker
  rcases hcs : getConversationState tm id with ⟨st?, tm'⟩
  cases st? with
  | none => rfl
  | some st =>
      have h1 : (getConversationState tm id).1 = some st := by rw [hcs]
      rw [getConversationState_fst] at h1
      have := h st h1
      simp [this]

/-- A sequence of `get_next_speaker` calls (conversation id, `random.random()`
draw, `random.choice` index), applied for their state effects. -/
def applyNextSpeakerCalls (tm : TurnManager) : List (String × ℚ × Nat) → TurnManager
  | [] => tm
  | c :: rest => applyNextSpeakerCalls (get_next_speaker tm c.1 c.2.1 c.2.2).2 rest

theorem stateView_applyNextSpeakerCalls (calls : List (String × ℚ × Nat)) :
    ∀ (tm : TurnManager) (id : String),
      stateView (applyNextSpeakerCalls tm calls) id = stateView tm id := by
  induction calls with
  | nil => intro tm id; rfl
  | cons c rest ih =>
      intro tm id
      rw [applyNextSpeakerCalls, ih, stateView_next_speaker]

/-- Deactivating an already-inactive state is the identity. -/
theorem inactive_update_eq (st : ConvState) (h : st.is_active = false) :
    ({ st with is_active := false } : ConvState) = st := by
  cases st
  simp_all

theorem stopPhase2_of_local_inactive (tm1 : TurnManager) (id : String)
    (st' : ConvState) (h1 : alGet tm1.localState id = some st')
    (h2 : st'.is_active = false) :
    stopPhase2 tm1 id =
      { localState := alSet tm1.localState id st'
        redisState := alSet tm1.redisState id st' } := by
  have hcs : getConversationState tm1 id = (some st', tm1) := by
    unfold getConversationState
    rw [h1]
  simp only [stopPhase2, hcs, inactive_update_eq st' h2]

theorem stop_eq_of_some_local (tm : TurnManager) (id : String) (st0 : ConvState)
    (hl : alGet tm.localState id = some st0) :
    stop_conversation tm id =
      { localState := alSet tm.localState id { st0 with is_active := false }
        redisState := alSet tm.redisState id { st0 with is_active := false } } := by
  unfold stop_conversation
  simp only [hl]
  rw [stopPhase2_of_local_inactive _ id { st0 with is_active := false }
        (alGet_alSet_self _ _ _) rfl]
  simp [alSet_alSet]

theorem stop_eq_of_redis (tm : TurnManager) (id : String) (st0 : ConvState)
    (hl : alGet tm.localState id = none) (hr : alGet tm.redisState id = some st0) :
    stop_conversation tm id =
      { localState := alSet tm.localState id { st0 with is_active := false }
        redisState := alSet tm.redisState id { st0 with is_active := false } } := by
  unfold stop_conversation
  simp only [hl]
  have hcs : getConversationState tm id =
      (some st0, { tm with localState := alSet tm.localState id st0 }) := by
    unfold getConversationState
    rw [hl, hr]
  simp only [stopPhase2, hcs]
  simp [alSet_alSet]

theorem stop_eq_of_none (tm : TurnManager) (id : String)
    (hl : alGet tm.localState id = none) (hr : alGet tm.redisState id = none) :
    stop_conversation tm id = tm := by
  unfold stop_conversation
  simp only [hl]
  have hcs : getConversationState tm id = (none, tm) := by
    unfold getConversationState
    rw [hl, hr]
  simp [stopPhase2, hcs]

theorem stop_conversation_idem (tm : TurnManager) (id : String) :
    stop_conversation (stop_conversation tm id) id = stop_conversation tm id := by
  cases hl : alGet tm.localState id with
  | some st0 =>
      rw [stop_eq_of_some_local tm id st0 hl]
      rw [stop_eq_of_some_local _ id { st0 with is_active := false }
            (alGet_alSet_self _ _ _)]
      simp [inactive_update_eq { st0 with is_active := false } rfl, alSet_alSet]
  | none =>
      cases hr : alGet tm.redisState id with
      | some st0 =>
          rw [stop_eq_of_redis tm id st0 hl hr]
          rw [stop_eq_of_some_local _ id { st0 with is_active := false }
                (alGet_alSet_self _ _ _)]
          simp [inactive_update_eq { st0 with is_active := false } rfl, alSet_alSet]
      | none =>
          rw [stop_eq_of_none tm id hl hr, stop_eq_of_none tm id hl hr]

/-! #### C9: recordSpeaker increments the turn counter -/

theorem update_last_speaker_stateView (tm : TurnManager) (id : String)
    (s : String) (st : ConvState) (h : stateView tm id = some st) :
    stateView (update_last_speaker tm id s) id =
      some { st with last_speaker := some s, current_turn := st.current_turn + 1 } := by
  have hfst : (getConversationState tm id).1 = some st := by
    rw [getConversationState_fst, h]
  unfold update_last_speaker
  rcases hcs : getConversationState tm id with ⟨st?, tm'⟩
  rw [hcs] at hfst
  simp at hfst
  subst hfst
  simp [stateView, alGet_alSet_self]

/-- A sequence of `update_last_speaker` calls for one conversation. -/
def applyRecordSpeakers (tm : TurnManager) (id : String) : List String → TurnManager
  | [] => tm
  | s :: rest => applyRecordSpeakers (update_last_speaker tm id s) id rest

theorem applyRecordSpeakers_turn (id : String) (speakers : List String) :
    ∀ (tm : TurnManager) (st : ConvState), stateView tm id = some st →
      ∃ st', stateView (applyRecordSpeakers tm id speakers) id = some st'
        ∧ st'.current_turn = st.current_turn + speakers.length := by
  induction speakers with
  | nil =>
      intro tm st h
      exact ⟨st, h, rfl⟩
  | cons s rest ih =>
      intro tm st h
      have h1 := update_last_speaker_stateView tm id s st h
      obtain ⟨st', hv, ht⟩ := ih (update_last_speaker tm id s) _ h1
      refine ⟨st', hv, ?_⟩
      simp [ht]
      omega

theorem stateView_start (tm : TurnManager) (id : String) (parts : List String) :
    stateView (start_conversation tm id parts) id =
      some { participants := parts, current_turn := 0, is_active := true
             last_speaker := none } := by
  simp [start_conversation, stateView, alGet_alSet_self]

/-! ## Claim theorems for the TurnManager -/

/-- C2 (counterexample): calling the scheduler's `start_conversation` with an
empty participant list does *not* fail and *does* create and persist
conversation state for the id — there is no `InvalidParticipants` check in
`turn_manager.py`. -/
theorem C2_counterexample :
    stateView (start_conversation TurnManager.empty "c1" []) "c1"
        = some { participants := [], current_turn := 0, is_active := true
                 last_speaker := none }
      ∧ alGet (start_conversation TurnManager.empty "c1" []).redisState "c1"
        = some { participants := [], current_turn := 0, is_active := true
                 last_speaker := none } := by
  decide

/-- C2 (amended): for every conversation ID, calling the scheduler's start
operation with an empty participant list succeeds with no validation: it
creates and persists (both in the local cache and in the redis store) an
active state with an empty participant list and turn count 0. -/
theorem C2_start_empty_creates_state (tm : TurnManager) (id : String) :
    stateView (start_conversation tm id []) id
        = some { participants := [], current_turn := 0, is_active := true
                 last_speaker := none }
      ∧ alGet (start_conversation tm id []).redisState id
        = some { participants := [], current_turn := 0, is_active := true
                 last_speaker := none } := by
  refine ⟨stateView_start tm id [], ?_⟩
  simp [start_conversation, alGet_alSet_self]

/-- C3: for every conversation state with a non-empty list of distinct
participants, `get_next_speaker` never returns the persona recorded as
`last_speaker`, unless the participant list has exactly one element. -/
theorem C3_next_speaker_avoids_last_speaker (tm : TurnManager) (id : String)
    (u : ℚ) (j : Nat) (st : ConvState) (s : String)
    (hst : stateView tm id = some st)
    (hne : st.participants ≠ []) (hnd : st.participants.Nodup)
    (hlen : st.participants.length ≠ 1)
    (hres : (get_next_speaker tm id u j).1 = .ok (some s)) :
    some s ≠ st.last_speaker := by
  have h0 : st.participants.length ≠ 0 := by
    simpa [List.length_eq_zero] using hne
  have h2 : 2 ≤ st.participants.length := by omega
  exact next_speaker_avoids_last tm id u j st hst hnd h2 s hres

/-- Witness for C3: with participants `["a", "b"]` and last speaker `"a"`,
the draw `u = 0` selects `"b"`, which differs from the last speaker. -/
theorem C3_witness : (some "b" : Option String) ≠ (some "a" : Option String) :=
  C3_next_speaker_avoids_last_speaker
    (update_last_speaker (start_conversation TurnManager.empty "c" ["a", "b"]) "c" "a")
    "c" 0 0
    { participants := ["a", "b"], current_turn := 1, is_active := true
      last_speaker := some "a" }
    "b" (by decide) (by decide) (by decide) (by decide)
    (by with_unfolding_all decide)

/-- C8: after `stop_conversation`, any number of further `get_next_speaker`
calls (on any conversations) later, `get_next_speaker` for this conversation
returns `None` (no fresh `start_conversation` intervening); and calling
`stop_conversation` again is idempotent: the manager state is unchanged by
the repeated stop. -/
theorem C8_stop_terminal_and_idempotent (tm : TurnManager) (id : String)
    (calls : List (String × ℚ × Nat)) (u : ℚ) (j : Nat) :
    (get_next_speaker (applyNextSpeakerCalls (stop_conversation tm id) calls) id u j).1
        = .ok none
    ∧ stop_conversation (stop_conversation tm id) id = stop_conversation tm id := by
  constructor
  · apply stopped_next_none
    intro st hst
    rw [stateView_applyNextSpeakerCalls] at hst
    exact stop_conversation_stopped tm id st hst
  · exact stop_conversation_idem tm id

/-- C9: for a conversation started via `start_conversation` (turn count 0),
each `update_last_speaker` call on an existing state increments
`current_turn` by exactly 1, and after recording N speakers the turn count
equals N. -/
theorem C9_record_speaker_turncount (tm : TurnManager) (id : String)
    (participants : List String) (speakers : List String) :
    (∀ (tm' : TurnManager) (st : ConvState) (s : String),
        stateView tm' id = some st →
          stateView (update_last_speaker tm' id s) id
            = some { st with last_speaker := some s
                             current_turn := st.current_turn + 1 })
    ∧ (stateView (applyRecordSpeakers (start_conversation tm id participants) id speakers)
          id).map ConvState.current_turn = some speakers.length := by
  constructor
  · intro tm' st s h
    exact update_last_speaker_stateView tm' id s st h
  · obtain ⟨st', hv, ht⟩ :=
      applyRecordSpeakers_turn id speakers (start_conversation tm id participants)
        _ (stateView_start tm id participants)
    rw [hv]
    simp [ht]

/-- Witness for C9: one concrete recorded speaker bumps the turn count from
0 to 1, and three recorded speakers yield turn count 3. -/
theorem C9_witness :
    stateView
        (update_last_speaker (start_conversation TurnManager.empty "c" ["a", "b"]) "c" "a")
        "c"
      = some { participants := ["a", "b"], current_turn := 1, is_active := true
               last_speaker := some "a" }
    ∧ (stateView
        (applyRecordSpeakers (start_conversation TurnManager.empty "c" ["a", "b"]) "c"
          ["a", "b", "a"]) "c").map ConvState.current_turn = some 3 :=
  ⟨(C9_record_speaker_turncount TurnManager.empty "c" ["a", "b"] ["a", "b", "a"]).1
      (start_conversation TurnManager.empty "c" ["a", "b"])
      { participants := ["a", "b"], current_turn := 0, is_active := true
        last_speaker := none }
      "a" (by decide),
    (C9_record_speaker_turncount TurnManager.empty "c" ["a", "b"] ["a", "b", "a"]).2⟩

/-! ## Provider selection (`conversation_orchestrator.py`,
`_select_provider_for_persona`)

A provider is identified by its registry name; its `health_check()` result
(queried live on every selection) is a `Bool` attached to the registry
entry.  The registry is `self.providers`, an insertion-ordered dict.  The
selected provider object is identified by its registry name. -/

/-- The manual per-persona provider configuration
(`persona_manager.get_persona_provider_config`): `provider` is `none` when
the key is absent. -/
structure PersonaProviderConfig where
  provider : Option String
  model : Option String
  deriving DecidableEq, Repr

/-- The first preference-list loop: skip `"demo"` and names not in the
registry; return the first healthy preferred provider. -/
def findPreferred (providers : List (String × Bool)) : List String → Option String
  | [] => none
  | n :: rest =>
      match if n = "demo" then none else alGet providers n with
      | some healthy => if healthy then some n else findPreferred providers rest
      | none => findPreferred providers rest

/-- The second loop: first healthy non-`"demo"` provider in registry order. -/
def findAnyReal : List (String × Bool) → Option String
  | [] => none
  | (n, h) :: rest => if n ≠ "demo" ∧ h then some n else findAnyReal rest

/-- The auto-selection fall-through of `_select_provider_for_persona`
(lines 419–444): persona preference list skipping `"demo"`, then any healthy
non-`"demo"` provider, then `"demo"` if healthy, else `None`. -/
def autoSelect (providers : List (String × Bool)) (assignment : List String) :
    Option String :=
  match findPreferred providers assignment with
  | some n => some n
  | none =>
      match findAnyReal providers with
      | some n => some n
      | none =>
          match alGet providers "demo" with
          | some h => if h then some "demo" else none
          | none => none

/-- `ConversationOrchestrator._select_provider_for_persona`: the manual
override (truthy and not `"auto"`) is used if present in the registry and
healthy; otherwise selection falls through to `autoSelect`. -/
def select_provider_for_persona (providers : List (String × Bool))
    (assignment : List String) (config : PersonaProviderConfig) : Option String :=
  match config.provider with
  | some p =>
      if p ≠ "" ∧ p ≠ "auto" then
        match alGet providers p with
        | some h => if h then some p else autoSelect providers assignment
        | none => autoSelect providers assignment
      else autoSelect providers assignment
  | none => autoSelect providers assignment

theorem alGet_mem {α β : Type} [DecidableEq α] (l : List (α × β)) (k : α) (v : β)
    (h : alGet l k = some v) : (k, v) ∈ l := by
  induction l with
  | nil => simp [alGet] at h
  | cons kv rest ih =>
      obtain ⟨k', v'⟩ := kv
      by_cases hk : k' = k
      · subst hk
        simp [alGet] at h
        simp [h]
      · simp [alGet, hk] at h
        exact List.mem_cons_of_mem _ (ih h)

theorem findPreferred_none_of_all_unhealthy (providers : List (String × Bool))
    (hall : ∀ n h, (n, h) ∈ providers → h = false) :
    ∀ l, findPreferred providers l = none := by
  intro l
  induction l with
  | nil => rfl
  | cons n rest ih =>
      unfold findPreferred
      by_cases hd : n = "demo"
      · simp [hd, ih]
      · simp only [hd, if_false]
        cases hg : alGet providers n with
        | none => simpa using ih
        | some healthy =>
            have := hall n healthy (alGet_mem _ _ _ hg)
            subst this
            simpa using ih

theorem findAnyReal_none_of_all_unhealthy (providers : List (String × Bool))
    (hall : ∀ n h, (n, h) ∈ providers → h = false) :
    findAnyReal providers = none := by
  induction providers with
  | nil => rfl
  | cons kv rest ih =>
      obtain ⟨n, h⟩ := kv
      have hh : h = false := hall n h (by simp)
      subst hh
      unfold findAnyReal
      simp only [Bool.false_eq_true, and_false, if_false]
      exact ih fun n' h' hm => hall n' h' (List.mem_cons_of_mem _ hm)

/-- C5, scenario 1 helper: with registry exactly `{A: unhealthy, B: healthy}`
and preference `[A, B]`, auto-selection picks `B` whatever the names are. -/
theorem select_two_providers (A B : String) (hAB : A ≠ B)
    (config : PersonaProviderConfig) (hcfg : config.provider = none) :
    select_provider_for_persona [(A, false), (B, true)] [A, B] config = some B := by
  unfold select_provider_for_persona
  rw [hcfg]
  by_cases hAd : A = "demo"
  · subst hAd
    simp [autoSelect, findPreferred, alGet, hAB, Ne.symm hAB]
  · by_cases hBd : B = "demo"
    · subst hBd
      simp [autoSelect, findPreferred, findAnyReal, alGet, hAB, Ne.symm hAB, hAd]
    · simp [autoSelect, findPreferred, alGet, hAB, Ne.symm hAB, hAd, hBd]

/-- C5, scenario 2 helper: if every provider in the registry (including any
`"demo"` fallback) fails its live health check, selection returns `None`,
whatever the preference list and the manual configuration. -/
theorem select_none_of_all_unhealthy (providers : List (String × Bool))
    (assignment : List String) (config : PersonaProviderConfig)
    (hall : ∀ n h, (n, h) ∈ providers → h = false) :
    select_provider_for_persona providers assignment config = none := by
  unfold select_provider_for_persona
  have hauto : autoSelect providers assignment = none := by
    unfold autoSelect
    rw [findPreferred_none_of_all_unhealthy providers hall assignment,
        findAnyReal_none_of_all_unhealthy providers hall]
    cases hg : alGet providers "demo" with
    | none => rfl
    | some h =>
        have := hall _ _ (alGet_mem _ _ _ hg)
        subst this
        rfl
  cases hc : config.provider with
  | none => exact hauto
  | some p =>
      dsimp only
      by_cases hp : p ≠ "" ∧ p ≠ "auto"
      · rw [if_pos hp]
        cases hg : alGet providers p with
        | none => exact hauto
        | some h =>
            have hh := hall _ _ (alGet_mem _ _ _ hg)
            subst hh
            simpa using hauto
      · rw [if_neg hp]
        exact hauto

/-- C5: (1) with registry exactly `{A: unhealthy, B: healthy}`, preference
order `[A, B]` and no manual override, `_select_provider_for_persona`
returns `B`; (2) for every registry in which all providers (the `"demo"`
fallback included) are unhealthy, it returns `None`. -/
theorem C5_provider_selection :
    (∀ (A B : String) (config : PersonaProviderConfig), A ≠ B →
        config.provider = none →
        select_provider_for_persona [(A, false), (B, true)] [A, B] config = some B)
    ∧ (∀ (providers : List (String × Bool)) (assignment : List String)
          (config : PersonaProviderConfig),
        (∀ n h, (n, h) ∈ providers → h = false) →
        select_provider_for_persona providers assignment config = none) :=
  ⟨fun A B config hAB hcfg => select_two_providers A B hAB config hcfg,
   fun providers assignment config hall =>
     select_none_of_all_unhealthy providers assignment config hall⟩

/-- Witness for C5 at concrete inputs: unhealthy `"openai"` plus healthy
`"claude"` selects `"claude"`; an all-unhealthy registry (with unhealthy
`"demo"` fallback, and even a manual override set) selects nothing. -/
theorem C5_witness :
    select_provider_for_persona [("openai", false), ("claude", true)]
        ["openai", "claude"] ⟨none, none⟩ = some "claude"
    ∧ select_provider_for_persona [("openai", false), ("demo", false)]
        ["openai", "demo"] ⟨some "openai", none⟩ = none :=
  ⟨C5_provider_selection.1 "openai" "claude" ⟨none, none⟩ (by decide) rfl,
   C5_provider_selection.2 [("openai", false), ("demo", false)]
     ["openai", "demo"] ⟨some "openai", none⟩
     (by
       intro n h hm
       simp only [List.mem_cons, List.not_mem_nil, Prod.mk.injEq, or_false] at hm
       rcases hm with ⟨-, rfl⟩ | ⟨-, rfl⟩ <;> rfl)⟩

/-! ## Response generation (`_generate_response`) and the turn loop step

`_generate_response` is modelled over an environment giving the oracles of
one call: the provider registry health snapshot (feeding
`_select_provider_for_persona`), the cache lookup result
(`response_cache.get_cached_response`), the streamed chunks of
`provider.chat`, and whether an exception is raised inside the `try` body
(in which case the function returns `None`). -/

structure GenEnv where
  providers : List (String × Bool)
  assignment : List String
  config : PersonaProviderConfig
  /-- result of `response_cache.get_cached_response` -/
  cached : Option String
  /-- chunks streamed by `provider.chat` -/
  chunks : List String
  /-- an exception was raised inside the `try` body -/
  raises : Bool
  deriving Repr

/-- The literal returned by `_generate_response` when
`_select_provider_for_persona` yields no provider (line 313; the trailing
characters are the mojibake actually present in the source file). -/
def fallbackMessage : String :=
  "I\x27m having trouble connecting to my AI brain right now! ðŸ¤–"

/-- `ConversationOrchestrator._generate_response`: on exception `None`; with
no selectable provider the fixed fallback text; on a truthy cache hit the
cached text; otherwise the stripped concatenation of the streamed chunks
(possibly empty). -/
def generate_response (env : GenEnv) : Option String :=
  if env.raises then none
  else
    match select_provider_for_persona env.providers env.assignment env.config with
    | none => some fallbackMessage
    | some _ =>
        match env.cached with
        | some c => if c ≠ "" then some c else some (String.join env.chunks).trim
        | none => some (String.join env.chunks).trim

/-- What one iteration of `_conversation_loop` does with the generation
result (lines 150–155): `if not response: continue` skips the turn for
`None` or `""`; otherwise the response is persisted and broadcast as a
`"message"` frame. -/
inductive TurnAction where
  | skipped
  | message (content : String)
  deriving DecidableEq, Repr

def turnAction (resp : Option String) : TurnAction :=
  match resp with
  | none => .skipped
  | some r => if r = "" then .skipped else .message r

/-- C1 (counterexample): with every provider unhealthy (provider
exhaustion), `_generate_response` returns the fallback apology text — not
`None` — and the loop therefore does *not* skip the turn: it persists and
broadcasts this text as a normal message. -/
theorem C1_counterexample :
    generate_response
        { providers := [("openai", false), ("demo", false)]
          assignment := ["openai", "demo"]
          config := ⟨none, none⟩
          cached := none, chunks := [], raises := false }
      = some fallbackMessage
    ∧ turnAction
        (generate_response
          { providers := [("openai", false), ("demo", false)]
            assignment := ["openai", "demo"]
            config := ⟨none, none⟩
            cached := none, chunks := [], raises := false })
      ≠ .skipped := by
  constructor
  · rfl
  · decide

/-- C1 (amended): whenever `_select_provider_for_persona` returns no
provider and no exception occurs, `_generate_response` returns the fixed
non-empty fallback message, so the turn is not skipped: the loop persists
and broadcasts that text as an ordinary `"message"` frame (no error frame),
and then continues. -/
theorem C1_exhaustion_yields_fallback_message (env : GenEnv)
    (hraise : env.raises = false)
    (hsel : select_provider_for_persona env.providers env.assignment env.config = none) :
    generate_response env = some fallbackMessage
    ∧ turnAction (generate_response env) = .message fallbackMessage := by
  have h1 : generate_response env = some fallbackMessage := by
    unfold generate_response
    rw [hraise, hsel]
    rfl
  refine ⟨h1, ?_⟩
  rw [h1]
  decide

/-- Witness for the amended C1 at a concrete exhausted registry. -/
theorem C1_witness :
    generate_response
        { providers := [("lm_studio", false), ("ollama", false), ("demo", false)]
          assignment := ["lm_studio", "ollama"]
          config := ⟨none, none⟩
          cached := none, chunks := [], raises := false }
      = some fallbackMessage
    ∧ turnAction
        (generate_response
          { providers := [("lm_studio", false), ("ollama", false), ("demo", false)]
            assignment := ["lm_studio", "ollama"]
            config := ⟨none, none⟩
            cached := none, chunks := [], raises := false })
      = .message fallbackMessage :=
  C1_exhaustion_yields_fallback_message
    { providers := [("lm_studio", false), ("ollama", false), ("demo", false)]
      assignment := ["lm_studio", "ollama"]
      config := ⟨none, none⟩
      cached := none, chunks := [], raises := false }
    rfl (by decide)

/-! ## WebSocketManager (`websocket_manager.py`)

`active_connections : Dict[str, Dict[WebSocket, float]]` maps a conversation
id to its room: an insertion-ordered dict from connection to last-heartbeat
timestamp.  Connections are identified by ids (`ConnId`); whether
`connection.send_text` succeeds is an environment oracle `sendOk` (fixed per
scenario).  Timestamps (`time.time()` floats) are rationals; an operation
runs at a single model time `now`.  Each operation returns the new manager
state together with the ordered trace of transport events it caused. -/

abbrev ConnId := Nat

/-- The JSON text frames sent over connections: application payloads
(broadcast dicts, abstracted), the structured error frames of `send_error`,
and the room-status frames of `send_conversation_status`. -/
inductive Frame where
  | payload (s : String)
  | error (code : String) (message : String)
  | status (conversation_id : String) (connected_clients : Nat)
  deriving DecidableEq, Repr

inductive WSEvent where
  /-- `connection.send_text(...)` was attempted -/
  | sendAttempt (c : ConnId) (f : Frame)
  /-- the send succeeded: the client received the frame -/
  | delivered (c : ConnId) (f : Frame)
  /-- `websocket.close(code)` -/
  | closedConn (c : ConnId) (code : Nat)
  /-- `redis_client.publish` of the frame on the conversation channel -/
  | published (cid : String) (f : Frame)
  deriving DecidableEq, Repr

structure WSManager where
  active_connections : List (String × List (ConnId × ℚ))
  connection_timeout : ℚ
  deriving Repr

/-- Which connections' `send_text` calls succeed in this scenario. -/
structure WSEnv where
  sendOk : ConnId → Bool

/-- The room of a conversation (empty if the key is absent). -/
def roomConns (m : WSManager) (cid : String) : List (ConnId × ℚ) :=
  (alGet m.active_connections cid).getD []

/-- `WebSocketManager.connect` (minus the accept/logging): ensure the room
exists and record `lastHeartbeat = now` for the connection. -/
def wsConnect (m : WSManager) (c : ConnId) (cid : String) (now : ℚ) : WSManager :=
  let room := (alGet m.active_connections cid).getD []
  { m with active_connections := alSet m.active_connections cid (alSet room c now) }

/-- `WebSocketManager.disconnect`: pop the connection from its room and
delete the room key if the room became empty. -/
def wsDisconnect (m : WSManager) (c : ConnId) (cid : String) : WSManager :=
  match alGet m.active_connections cid with
  | none => m
  | some room =>
      let room' := alErase room c
      if room'.isEmpty then
        { m with active_connections := alErase m.active_connections cid }
      else
        { m with active_connections := alSet m.active_connections cid room' }

/-- `send_personal_message`: attempt the send; an exception is swallowed
(only logged), so the caller observes nothing. -/
def send_personal_message (env : WSEnv) (c : ConnId) (f : Frame) : List WSEvent :=
  if env.sendOk c then [.sendAttempt c f, .delivered c f] else [.sendAttempt c f]

/-- `send_error`: a structured `{"type": "error", "code": ..., ...}` frame
via `send_personal_message`. -/
def send_error (env : WSEnv) (c : ConnId) (code message : String) : List WSEvent :=
  send_personal_message env c (.error code message)

/-- `mark_heartbeat`: refresh the last-seen timestamp if the connection is
still registered. -/
def mark_heartbeat (m : WSManager) (cid : String) (c : ConnId) (now : ℚ) : WSManager :=
  match alGet m.active_connections cid with
  | none => m
  | some room =>
      if (alGet room c).isSome then
        { m with active_connections := alSet m.active_connections cid (alSet room c now) }
      else m

/-- The `for connection in connections:` loop of `broadcast_to_conversation`:
send to each snapshot connection; on success `mark_heartbeat`, on exception
remember the connection in `disconnected_connections`. -/
def broadcastLoop (env : WSEnv) (now : ℚ) (cid : String) (f : Frame) :
    List ConnId → WSManager → List ConnId → List WSEvent →
      WSManager × List ConnId × List WSEvent
  | [], m, disc, evs => (m, disc, evs)
  | c :: rest, m, disc, evs =>
      if env.sendOk c then
        broadcastLoop env now cid f rest (mark_heartbeat m cid c now) disc
          (evs ++ [.sendAttempt c f, .delivered c f])
      else
        broadcastLoop env now cid f rest m (disc ++ [c]) (evs ++ [.sendAttempt c f])

/-- `broadcast_to_conversation`: iterate over a snapshot of the room's keys,
then disconnect every failed connection, then publish to redis. -/
def broadcast_to_conversation (env : WSEnv) (now : ℚ) (m : WSManager)
    (cid : String) (f : Frame) : WSManager × List WSEvent :=
  match alGet m.active_connections cid with
  | none => (m, [])
  | some room =>
      let conns := room.map Prod.fst
      let r := broadcastLoop env now cid f conns m [] []
      let m2 := r.2.1.foldl (fun acc c => wsDisconnect acc c cid) r.1
      (m2, r.2.2 ++ [.published cid f])

/-- `get_conversation_clients_count`. -/
def get_conversation_clients_count (m : WSManager) (cid : String) : Nat :=
  (roomConns m cid).length

/-- `send_conversation_status`: broadcast the room-population status frame. -/
def send_conversation_status (env : WSEnv) (now : ℚ) (m : WSManager)
    (cid : String) : WSManager × List WSEvent :=
  broadcast_to_conversation env now m cid
    (.status cid (get_conversation_clients_count m cid))

/-- The stale snapshot collected by `remove_stale_connections`: every
`(conversation_id, websocket)` whose last heartbeat is strictly older than
`connection_timeout`. -/
def staleList (m : WSManager) (now : ℚ) : List (String × ConnId) :=
  (m.active_connections.map (fun r =>
    (r.2.filter (fun ct => now - ct.2 > m.connection_timeout)).map
      (fun ct => (r.1, ct.1)))).flatten

/-- One iteration of the eviction loop of `remove_stale_connections`:
`send_error` (code `heartbeat_timeout`), `close(1001)`, `disconnect`, then
`send_conversation_status` for the room. -/
def sweepStep (env : WSEnv) (now : ℚ) (acc : WSManager × List WSEvent)
    (p : String × ConnId) : WSManager × List WSEvent :=
  let evs1 := acc.2 ++ send_error env p.2 "heartbeat_timeout"
      "Connection closed due to inactivity." ++ [.closedConn p.2 1001]
  let m1 := wsDisconnect acc.1 p.2 p.1
  let r := send_conversation_status env now m1 p.1
  (r.1, evs1 ++ r.2)

/-- `remove_stale_connections`: collect the stale snapshot, then evict each
stale connection in turn. -/
def remove_stale_connections (env : WSEnv) (now : ℚ) (m : WSManager) :
    WSManager × List WSEvent :=
  (staleList m now).foldl (sweepStep env now) (m, [])

/-! ### Association-list lemmas for the connection registry -/

theorem alGet_isSome_iff {α β : Type} [DecidableEq α] (l : List (α × β)) (k : α) :
    (alGet l k).isSome ↔ k ∈ l.map Prod.fst := by
  induction l with
  | nil => simp [alGet]
  | cons kv rest ih =>
      obtain ⟨k', v'⟩ := kv
      by_cases hk : k' = k
      · subst hk
        simp [alGet]
      · simp only [alGet, hk, if_false, List.map_cons, List.mem_cons]
        rw [ih]
        constructor
        · exact Or.inr
        · rintro (h | h)
          · exact absurd h.symm hk
          · exact h

theorem alSet_map_fst_of_isSome {α β : Type} [DecidableEq α]
    (l : List (α × β)) (k : α) (v : β) (h : (alGet l k).isSome) :
    (alSet l k v).map Prod.fst = l.map Prod.fst := by
  induction l with
  | nil => simp [alGet] at h
  | cons kv rest ih =>
      obtain ⟨k', v'⟩ := kv
      by_cases hk : k' = k
      · simp [alSet, hk]
      · simp only [alGet, hk, if_false] at h
        simp [alSet, hk, ih h]

theorem alErase_map_fst {α β : Type} [DecidableEq α] (l : List (α × β)) (k : α) :
    (alErase l k).map Prod.fst = (l.map Prod.fst).erase k := by
  induction l with
  | nil => simp [alErase]
  | cons kv rest ih =>
      obtain ⟨k', v'⟩ := kv
      by_cases hk : k' = k
      · subst hk
        simp [alErase, List.erase_cons]
      · simp [alErase, List.erase_cons, hk, ih]

theorem alGet_none_of_not_mem {α β : Type} [DecidableEq α]
    (l : List (α × β)) (k : α) (h : k ∉ l.map Prod.fst) : alGet l k = none := by
  cases hg : alGet l k with
  | none => rfl
  | some v =>
      exact absurd ((alGet_isSome_iff l k).mp (by simp [hg])) h

theorem alGet_alErase_self {α β : Type} [DecidableEq α]
    (l : List (α × β)) (k : α) (hnd : (l.map Prod.fst).Nodup) :
    alGet (alErase l k) k = none := by
  apply alGet_none_of_not_mem
  rw [alErase_map_fst]
  exact fun hmem => (List.Nodup.not_mem_erase hnd) hmem

theorem alGet_alErase_ne {α β : Type} [DecidableEq α]
    (l : List (α × β)) (k k' : α) (h : k ≠ k') :
    alGet (alErase l k) k' = alGet l k' := by
  induction l with
  | nil => simp [alErase]
  | cons kv rest ih =>
      obtain ⟨k0, v0⟩ := kv
      by_cases hk : k0 = k
      · subst hk
        have he : alErase ((k0, v0) :: rest) k0 = rest := by simp [alErase]
        rw [he]
        have : alGet ((k0, v0) :: rest) k' = alGet rest k' := by
          simp [alGet, fun hh : k0 = k' => h hh]
        rw [this]
      · have he : alErase ((k0, v0) :: rest) k = (k0, v0) :: alErase rest k := by
          simp [alErase, hk]
        rw [he]
        by_cases hk' : k0 = k' <;> simp [alGet, hk', ih]

theorem filter_fst_ne_eq_self {α β : Type} [DecidableEq α]
    (l : List (α × β)) (k : α) (h : k ∉ l.map Prod.fst) :
    l.filter (fun kv => kv.1 ≠ k) = l := by
  induction l with
  | nil => rfl
  | cons kv rest ih =>
      simp only [List.map_cons, List.mem_cons] at h
      push_neg at h
      rw [List.filter_cons, if_pos (by simpa using Ne.symm h.1), ih h.2]

theorem alErase_eq_filter_of_nodup {α β : Type} [DecidableEq α]
    (l : List (α × β)) (k : α) (hnd : (l.map Prod.fst).Nodup) :
    alErase l k = l.filter (fun kv => kv.1 ≠ k) := by
  induction l with
  | nil => rfl
  | cons kv rest ih =>
      obtain ⟨k0, v0⟩ := kv
      simp only [List.map_cons, List.nodup_cons] at hnd
      by_cases hk : k0 = k
      · subst hk
        have he : alErase ((k0, v0) :: rest) k0 = rest := by simp [alErase]
        rw [he, List.filter_cons, if_neg (by simp)]
        exact (filter_fst_ne_eq_self rest k0 hnd.1).symm
      · have he : alErase ((k0, v0) :: rest) k = (k0, v0) :: alErase rest k := by
          simp [alErase, hk]
        rw [he, List.filter_cons, if_pos (by simpa using hk), ih hnd.2]

theorem map_upd_eq_self {α β : Type} [DecidableEq α]
    (l : List (α × β)) (k : α) (v : β) (h : k ∉ l.map Prod.fst) :
    l.map (fun kv => if kv.1 = k then (kv.1, v) else kv) = l := by
  induction l with
  | nil => rfl
  | cons kv rest ih =>
      simp only [List.map_cons, List.mem_cons] at h
      push_neg at h
      simp [Ne.symm h.1, ih h.2]

theorem alSet_eq_map_of_nodup {α β : Type} [DecidableEq α]
    (l : List (α × β)) (k : α) (v : β) (hnd : (l.map Prod.fst).Nodup)
    (h : (alGet l k).isSome) :
    alSet l k v = l.map (fun kv => if kv.1 = k then (kv.1, v) else kv) := by
  induction l with
  | nil => simp [alGet] at h
  | cons kv rest ih =>
      obtain ⟨k0, v0⟩ := kv
      simp only [List.map_cons, List.nodup_cons] at hnd
      by_cases hk : k0 = k
      · subst hk
        simp [alSet, map_upd_eq_self rest k0 v hnd.1]
      · simp only [alGet, hk, if_false] at h
        simp [alSet, hk, ih hnd.2 h]

/-! ### Single-operation room lemmas -/

/-- The two structural invariants of the Python `dict` of `dict`s: no
duplicate conversation keys, and no duplicate connection keys in a room. -/
def WSWF (m : WSManager) : Prop :=
  (m.active_connections.map Prod.fst).Nodup ∧
  ∀ cid, ((roomConns m cid).map Prod.fst).Nodup

theorem roomConns_eq_of_alGet (m : WSManager) (cid : String)
    (room : List (ConnId × ℚ)) (h : alGet m.active_connections cid = some room) :
    roomConns m cid = room := by
  simp [roomConns, h]

theorem wsDisconnect_room (m : WSManager) (c : ConnId) (cid : String)
    (houter : (m.active_connections.map Prod.fst).Nodup) :
    roomConns (wsDisconnect m c cid) cid = alErase (roomConns m cid) c := by
  unfold wsDisconnect
  cases hg : alGet m.active_connections cid with
  | none => simp [roomConns, hg, alErase]
  | some room =>
      by_cases he : (alErase room c).isEmpty
      · simp only [he, if_true]
        have : alGet (alErase m.active_connections cid) cid = none :=
          alGet_alErase_self _ _ houter
        simp [roomConns, this, hg, List.isEmpty_iff.mp he]
      · simp [he, roomConns, hg, alGet_alSet_self]

theorem wsDisconnect_room_ne (m : WSManager) (c : ConnId) (cid cid' : String)
    (h : cid ≠ cid') :
    roomConns (wsDisconnect m c cid) cid' = roomConns m cid' := by
  unfold wsDisconnect
  cases hg : alGet m.active_connections cid with
  | none => rfl
  | some room =>
      by_cases he : (alErase room c).isEmpty
      · simp [he, roomConns, alGet_alErase_ne _ _ _ h]
      · simp [he, roomConns, alGet_alSet_ne _ _ _ _ h]

theorem wsDisconnect_outer_nodup (m : WSManager) (c : ConnId) (cid : String)
    (houter : (m.active_connections.map Prod.fst).Nodup) :
    ((wsDisconnect m c cid).active_connections.map Prod.fst).Nodup := by
  unfold wsDisconnect
  cases hg : alGet m.active_connections cid with
  | none => exact houter
  | some room =>
      by_cases he : (alErase room c).isEmpty
      · simp only [he, if_true]
        rw [alErase_map_fst]
        exact houter.erase cid
      · dsimp only
        rw [if_neg he]
        show (List.map Prod.fst (alSet m.active_connections cid (alErase room c))).Nodup
        rw [alSet_map_fst_of_isSome _ _ _ (by simp [hg])]
        exact houter

theorem wsDisconnect_timeout (m : WSManager) (c : ConnId) (cid : String) :
    (wsDisconnect m c cid).connection_timeout = m.connection_timeout := by
  unfold wsDisconnect
  cases alGet m.active_connections cid with
  | none => rfl
  | some room =>
      by_cases he : (alErase room c).isEmpty <;> simp [he]

theorem mark_heartbeat_room (m : WSManager) (cid : String) (c : ConnId) (now : ℚ) :
    roomConns (mark_heartbeat m cid c now) cid =
      if (alGet (roomConns m cid) c).isSome then alSet (roomConns m cid) c now
      else roomConns m cid := by
  unfold mark_heartbeat
  cases hg : alGet m.active_connections cid with
  | none => simp [roomConns, hg, alGet]
  | some room =>
      by_cases hc : (alGet room c).isSome
      · simp [roomConns, hg, hc, alGet_alSet_self]
      · simp [roomConns, hg, hc]

theorem mark_heartbeat_room_ne (m : WSManager) (cid cid' : String) (c : ConnId)
    (now : ℚ) (h : cid ≠ cid') :
    roomConns (mark_heartbeat m cid c now) cid' = roomConns m cid' := by
  unfold mark_heartbeat
  cases hg : alGet m.active_connections cid with
  | none => rfl
  | some room =>
      by_cases hc : (alGet room c).isSome
      · simp [hc, roomConns, alGet_alSet_ne _ _ _ _ h]
      · simp [hc]

theorem mark_heartbeat_outer_fst (m : WSManager) (cid : String) (c : ConnId)
    (now : ℚ) :
    (mark_heartbeat m cid c now).active_connections.map Prod.fst
      = m.active_connections.map Prod.fst := by
  unfold mark_heartbeat
  cases hg : alGet m.active_connections cid with
  | none => rfl
  | some room =>
      by_cases hc : (alGet room c).isSome
      · simp only [hc, if_true]
        exact alSet_map_fst_of_isSome _ _ _ (by simp [hg])
      · simp [hc]

theorem mark_heartbeat_timeout (m : WSManager) (cid : String) (c : ConnId)
    (now : ℚ) :
    (mark_heartbeat m cid c now).connection_timeout = m.connection_timeout := by
  unfold mark_heartbeat
  cases alGet m.active_connections cid with
  | none => rfl
  | some room =>
      by_cases hc : (alGet room c).isSome <;> simp [hc]

/-! ### Broadcast lemmas -/

def isSendAttempt : WSEvent → Bool
  | .sendAttempt _ _ => true
  | _ => false

theorem broadcastLoop_evs_append (env : WSEnv) (now : ℚ) (cid : String) (f : Frame)
    (conns : List ConnId) : ∀ m disc evs, ∃ t,
    (broadcastLoop env now cid f conns m disc evs).2.2 = evs ++ t := by
  induction conns with
  | nil => exact fun m disc evs => ⟨[], by simp [broadcastLoop]⟩
  | cons c rest ih =>
      intro m disc evs
      unfold broadcastLoop
      by_cases hok : env.sendOk c
      · rw [if_pos hok]
        obtain ⟨t, ht⟩ := ih (mark_heartbeat m cid c now) disc
            (evs ++ [.sendAttempt c f, .delivered c f])
        exact ⟨[.sendAttempt c f, .delivered c f] ++ t, by rw [ht, List.append_assoc]⟩
      · rw [if_neg hok]
        obtain ⟨t, ht⟩ := ih m (disc ++ [c]) (evs ++ [.sendAttempt c f])
        exact ⟨[.sendAttempt c f] ++ t, by rw [ht, List.append_assoc]⟩

theorem broadcastLoop_attempt_count (env : WSEnv) (now : ℚ) (cid : String)
    (f : Frame) (conns : List ConnId) : ∀ m disc evs,
    (broadcastLoop env now cid f conns m disc evs).2.2.countP isSendAttempt
      = evs.countP isSendAttempt + conns.length := by
  induction conns with
  | nil => intro m disc evs; simp [broadcastLoop]
  | cons c rest ih =>
      intro m disc evs
      unfold broadcastLoop
      by_cases hok : env.sendOk c
      · rw [if_pos hok, ih]
        simp [List.countP_append, isSendAttempt]
        omega
      · rw [if_neg hok, ih]
        simp [List.countP_append, isSendAttempt]
        omega

theorem broadcastLoop_delivered (env : WSEnv) (now : ℚ) (cid : String) (f : Frame)
    (conns : List ConnId) : ∀ m disc evs (c : ConnId), c ∈ conns →
    env.sendOk c = true →
    WSEvent.delivered c f ∈ (broadcastLoop env now cid f conns m disc evs).2.2 := by
  induction conns with
  | nil => intro m disc evs c hc; exact absurd hc (List.not_mem_nil c)
  | cons c0 rest ih =>
      intro m disc evs c hc hok
      unfold broadcastLoop
      rcases List.mem_cons.mp hc with hc0 | hcr
      · subst hc0
        rw [if_pos hok]
        obtain ⟨t, ht⟩ := broadcastLoop_evs_append env now cid f rest
          (mark_heartbeat m cid c now) disc (evs ++ [.sendAttempt c f, .delivered c f])
        rw [ht]
        simp
      · by_cases hok0 : env.sendOk c0
        · rw [if_pos hok0]
          exact ih _ _ _ c hcr hok
        · rw [if_neg hok0]
          exact ih _ _ _ c hcr hok

/-- The full specification of the send loop of `broadcast_to_conversation`:
connections with successful sends get their heartbeat set to `now`, the
failed ones are collected in order into `disconnected_connections`, other
rooms and the registry keys are untouched. -/
theorem broadcastLoop_spec (env : WSEnv) (now : ℚ) (cid : String) (f : Frame)
    (conns : List ConnId) : ∀ (m : WSManager) (R : List (ConnId × ℚ))
    (disc : List ConnId) (evs : List WSEvent),
    roomConns m cid = R → (R.map Prod.fst).Nodup →
    (∀ c ∈ conns, c ∈ R.map Prod.fst) →
    roomConns (broadcastLoop env now cid f conns m disc evs).1 cid
        = R.map (fun ct =>
            if ct.1 ∈ conns.filter (fun c => env.sendOk c) then (ct.1, now) else ct)
    ∧ (broadcastLoop env now cid f conns m disc evs).2.1
        = disc ++ conns.filter (fun c => ¬ env.sendOk c)
    ∧ (∀ cid', cid' ≠ cid →
        roomConns (broadcastLoop env now cid f conns m disc evs).1 cid'
          = roomConns m cid')
    ∧ (broadcastLoop env now cid f conns m disc evs).1.active_connections.map Prod.fst
        = m.active_connections.map Prod.fst
    ∧ (broadcastLoop env now cid f conns m disc evs).1.connection_timeout
        = m.connection_timeout := by
  induction conns with
  | nil =>
      intro m R disc evs hR hnd hsub
      refine ⟨?_, by simp [broadcastLoop], fun cid' h => rfl, rfl, rfl⟩
      simp [broadcastLoop, hR.symm]
  | cons c rest ih =>
      intro m R disc evs hR hnd hsub
      have hcR : c ∈ R.map Prod.fst := hsub c (List.mem_cons_self c rest)
      by_cases hok : env.sendOk c
      · have hsome : (alGet R c).isSome := (alGet_isSome_iff R c).mpr hcR
        have hroom' : roomConns (mark_heartbeat m cid c now) cid = alSet R c now := by
          rw [mark_heartbeat_room, hR, if_pos hsome]
        have hmapform : alSet R c now
            = R.map (fun kv => if kv.1 = c then (kv.1, now) else kv) :=
          alSet_eq_map_of_nodup R c now hnd hsome
        have hids : (alSet R c now).map Prod.fst = R.map Prod.fst :=
          alSet_map_fst_of_isSome R c now hsome
        have hnd' : ((alSet R c now).map Prod.fst).Nodup := by rw [hids]; exact hnd
        have hsub' : ∀ c' ∈ rest, c' ∈ (alSet R c now).map Prod.fst := by
          intro c' hc'
          rw [hids]
          exact hsub c' (List.mem_cons_of_mem c hc')
        obtain ⟨ihroom, ihdisc, ihframe, ihouter, ihtime⟩ :=
          ih (mark_heartbeat m cid c now) (alSet R c now) disc
            (evs ++ [.sendAttempt c f, .delivered c f]) hroom' hnd' hsub'
        have hstep : broadcastLoop env now cid f (c :: rest) m disc evs
            = broadcastLoop env now cid f rest (mark_heartbeat m cid c now) disc
                (evs ++ [.sendAttempt c f, .delivered c f]) := by
          conv_lhs => rw [broadcastLoop]
          rw [if_pos hok]
        rw [hstep]
        refine ⟨?_, ?_, ?_, ?_, ?_⟩
        · rw [ihroom, hmapform, List.map_map]
          have hfuneq :
              ((fun ct => if ct.1 ∈ rest.filter (fun c' => env.sendOk c')
                  then (ct.1, now) else ct)
                ∘ (fun kv => if kv.1 = c then (kv.1, now) else kv))
              = (fun ct : ConnId × ℚ =>
                  if ct.1 ∈ (c :: rest).filter (fun c' => env.sendOk c')
                  then (ct.1, now) else ct) := by
            funext ct
            simp only [Function.comp, List.filter_cons, hok, if_true]
            by_cases hc : ct.1 = c
            · simp [hc]
            · simp only [hc, if_false]
              by_cases hr : ct.1 ∈ rest.filter (fun c' => env.sendOk c')
              · simp [hr, List.mem_cons, hc]
              · simp [hr, List.mem_cons, hc]
          rw [hfuneq]
        · rw [ihdisc]
          simp [List.filter_cons, hok]
        · intro cid' h
          rw [ihframe cid' h, mark_heartbeat_room_ne m cid cid' c now (fun hh => h hh.symm)]
        · rw [ihouter, mark_heartbeat_outer_fst]
        · rw [ihtime, mark_heartbeat_timeout]
      · obtain ⟨ihroom, ihdisc, ihframe, ihouter, ihtime⟩ :=
          ih m R (disc ++ [c]) (evs ++ [.sendAttempt c f]) hR hnd
            (fun c' hc' => hsub c' (List.mem_cons_of_mem c hc'))
        have hstep : broadcastLoop env now cid f (c :: rest) m disc evs
            = broadcastLoop env now cid f rest m (disc ++ [c])
                (evs ++ [.sendAttempt c f]) := by
          conv_lhs => rw [broadcastLoop]
          rw [if_neg hok]
        rw [hstep]
        refine ⟨?_, ?_, ihframe, ihouter, ihtime⟩
        · rw [ihroom]
          have : (c :: rest).filter (fun c' => env.sendOk c')
              = rest.filter (fun c' => env.sendOk c') := by
            simp [List.filter_cons, hok]
          rw [this]
        · rw [ihdisc]
          simp [List.filter_cons, hok, List.append_assoc]

theorem filter_ids_nodup {α β : Type} [DecidableEq α] (S : List (α × β))
    (p : α × β → Bool) (hnd : (S.map Prod.fst).Nodup) :
    ((S.filter p).map Prod.fst).Nodup :=
  hnd.sublist (List.Sublist.map Prod.fst (List.filter_sublist S))

theorem foldl_alErase_eq_filter {α β : Type} [DecidableEq α] (ks : List α) :
    ∀ (S : List (α × β)), (S.map Prod.fst).Nodup →
    ks.foldl (fun T k => alErase T k) S = S.filter (fun kv => kv.1 ∉ ks) := by
  induction ks with
  | nil =>
      intro S _
      simp
  | cons k ks ih =>
      intro S hnd
      rw [List.foldl_cons]
      rw [alErase_eq_filter_of_nodup S k hnd]
      rw [ih _ (filter_ids_nodup S _ hnd)]
      rw [List.filter_filter]
      refine List.filter_congr ?_
      intro kv _
      by_cases h1 : kv.1 = k
      · simp [h1]
      · simp [h1]

theorem fold_wsDisconnect_spec (cid : String) (ks : List ConnId) :
    ∀ (m : WSManager), (m.active_connections.map Prod.fst).Nodup →
    roomConns (ks.foldl (fun acc c => wsDisconnect acc c cid) m) cid
        = ks.foldl (fun T k => alErase T k) (roomConns m cid)
    ∧ (∀ cid', cid' ≠ cid →
        roomConns (ks.foldl (fun acc c => wsDisconnect acc c cid) m) cid'
          = roomConns m cid')
    ∧ ((ks.foldl (fun acc c => wsDisconnect acc c cid) m).active_connections.map
        Prod.fst).Nodup
    ∧ (ks.foldl (fun acc c => wsDisconnect acc c cid) m).connection_timeout
        = m.connection_timeout := by
  induction ks with
  | nil =>
      intro m houter
      exact ⟨rfl, fun _ _ => rfl, houter, rfl⟩
  | cons k ks ih =>
      intro m houter
      obtain ⟨ihroom, ihframe, ihouter, ihtime⟩ :=
        ih (wsDisconnect m k cid) (wsDisconnect_outer_nodup m k cid houter)
      refine ⟨?_, ?_, ihouter, ?_⟩
      · rw [List.foldl_cons, ihroom, wsDisconnect_room m k cid houter, List.foldl_cons]
      · intro cid' h
        rw [List.foldl_cons, ihframe cid' h, wsDisconnect_room_ne m k cid cid' h.symm]
      · rw [List.foldl_cons, ihtime, wsDisconnect_timeout]

theorem map_fst_map_if (R : List (ConnId × ℚ)) (conns : List ConnId) (now : ℚ) :
    (R.map (fun ct => if ct.1 ∈ conns then (ct.1, now) else ct)).map Prod.fst
      = R.map Prod.fst := by
  rw [List.map_map]
  refine List.map_congr_left ?_
  intro ct _
  by_cases h : ct.1 ∈ conns <;> simp [h]

theorem final_room_calc (env : WSEnv) (now : ℚ) (R : List (ConnId × ℚ))
    (ids : List ConnId) (hsub : ∀ ct ∈ R, ct.1 ∈ ids) :
    (R.map (fun ct =>
        if ct.1 ∈ ids.filter (fun c => env.sendOk c) then (ct.1, now) else ct)).filter
        (fun ct => ct.1 ∉ ids.filter (fun c => ¬ env.sendOk c))
      = (R.filter (fun ct => env.sendOk ct.1)).map (fun ct => (ct.1, now)) := by
  induction R with
  | nil => rfl
  | cons ct R' ih =>
      have hmem : ct.1 ∈ ids := hsub ct (List.mem_cons_self ct R')
      have ih' := ih (fun ct' h => hsub ct' (List.mem_cons_of_mem ct h))
      by_cases hok : env.sendOk ct.1
      · have h1 : ct.1 ∈ ids.filter (fun c => env.sendOk c) :=
          List.mem_filter.mpr ⟨hmem, hok⟩
        have h2 : ct.1 ∉ ids.filter (fun c => ¬ env.sendOk c) := by
          intro hmem2
          have := (List.mem_filter.mp hmem2).2
          simp [hok] at this
        rw [List.map_cons, if_pos h1, List.filter_cons, if_pos (decide_eq_true h2),
            List.filter_cons, if_pos (by simpa using hok), List.map_cons, ih']
      · have h1 : ct.1 ∉ ids.filter (fun c => env.sendOk c) := by
          intro hmem1
          have := (List.mem_filter.mp hmem1).2
          simp [hok] at this
        have h2 : ct.1 ∈ ids.filter (fun c => ¬ env.sendOk c) :=
          List.mem_filter.mpr ⟨hmem, by simpa using hok⟩
        rw [List.map_cons, if_neg h1, List.filter_cons, if_neg (by simpa using h2),
            List.filter_cons, if_neg (by simpa using hok), ih']

/-- Top-level specification of `broadcast_to_conversation`: the room keeps
exactly the connections whose sends succeed, with their heartbeats refreshed
to `now`; failed connections are evicted; other rooms are untouched. -/
theorem broadcast_spec (env : WSEnv) (now : ℚ) (m : WSManager) (cid : String)
    (f : Frame) (houter : (m.active_connections.map Prod.fst).Nodup)
    (hnd : ((roomConns m cid).map Prod.fst).Nodup) :
    roomConns (broadcast_to_conversation env now m cid f).1 cid
        = ((roomConns m cid).filter (fun ct => env.sendOk ct.1)).map
            (fun ct => (ct.1, now))
    ∧ (∀ cid', cid' ≠ cid →
        roomConns (broadcast_to_conversation env now m cid f).1 cid'
          = roomConns m cid')
    ∧ ((broadcast_to_conversation env now m cid f).1.active_connections.map
        Prod.fst).Nodup
    ∧ (broadcast_to_conversation env now m cid f).1.connection_timeout
        = m.connection_timeout := by
  unfold broadcast_to_conversation
  cases hg : alGet m.active_connections cid with
  | none =>
      have hr : roomConns m cid = [] := by simp [roomConns, hg]
      exact ⟨by simp [hr], fun _ _ => rfl, houter, rfl⟩
  | some room =>
      have hR : roomConns m cid = room := roomConns_eq_of_alGet m cid room hg
      rw [hR] at hnd
      obtain ⟨lroom, ldisc, lframe, louter, ltime⟩ :=
        broadcastLoop_spec env now cid f (room.map Prod.fst) m room [] [] hR hnd
          (fun c hc => hc)
      have houter1 : ((broadcastLoop env now cid f (room.map Prod.fst) m [] []).1.active_connections.map Prod.fst).Nodup := by
        rw [louter]; exact houter
      obtain ⟨froom, fframe, fouter, ftime⟩ :=
        fold_wsDisconnect_spec cid
          ((broadcastLoop env now cid f (room.map Prod.fst) m [] []).2.1)
          (broadcastLoop env now cid f (room.map Prod.fst) m [] []).1 houter1
      refine ⟨?_, ?_, ?_, ?_⟩
      · rw [froom, ldisc, List.nil_append, lroom]
        rw [foldl_alErase_eq_filter _ _ (by rw [map_fst_map_if]; exact hnd)]
        rw [hR]
        exact final_room_calc env now room (room.map Prod.fst)
          (fun ct h => List.mem_map_of_mem Prod.fst h)
      · intro cid' h
        rw [fframe cid' h, lframe cid' h]
      · exact fouter
      · rw [ftime, ltime]

theorem broadcast_attempt_count (env : WSEnv) (now : ℚ) (m : WSManager)
    (cid : String) (f : Frame) :
    (broadcast_to_conversation env now m cid f).2.countP isSendAttempt
      = (roomConns m cid).length := by
  unfold broadcast_to_conversation
  cases hg : alGet m.active_connections cid with
  | none => simp [roomConns, hg]
  | some room =>
      have hR : roomConns m cid = room := roomConns_eq_of_alGet m cid room hg
      rw [hR]
      simp only [List.countP_append]
      rw [broadcastLoop_attempt_count]
      simp [isSendAttempt]

theorem broadcast_delivered_mem (env : WSEnv) (now : ℚ) (m : WSManager)
    (cid : String) (f : Frame) (c : ConnId) (t : ℚ)
    (hmem : (c, t) ∈ roomConns m cid) (hok : env.sendOk c = true) :
    WSEvent.delivered c f ∈ (broadcast_to_conversation env now m cid f).2 := by
  unfold broadcast_to_conversation
  cases hg : alGet m.active_connections cid with
  | none =>
      rw [roomConns, hg] at hmem
      exact absurd hmem (List.not_mem_nil _)
  | some room =>
      have hR : roomConns m cid = room := roomConns_eq_of_alGet m cid room hg
      rw [hR] at hmem
      have hc : c ∈ room.map Prod.fst := by
        exact List.mem_map.mpr ⟨(c, t), hmem, rfl⟩
      have := broadcastLoop_delivered env now cid f (room.map Prod.fst) m [] [] c hc hok
      simp only [List.mem_append]
      exact Or.inl this

/-- C6: with exactly two distinct connections registered for a conversation,
one broadcast makes exactly two send attempts; and if the first connection's
send throws while the second succeeds, the second still receives the
message, the failing connection is removed, and the room retains exactly one
connection. -/
theorem C6_broadcast_partial_failure (env : WSEnv) (now : ℚ) (m : WSManager)
    (cid : String) (f : Frame) (c1 c2 : ConnId) (t1 t2 : ℚ)
    (houter : (m.active_connections.map Prod.fst).Nodup)
    (hroom : alGet m.active_connections cid = some [(c1, t1), (c2, t2)])
    (hne : c1 ≠ c2) :
    (broadcast_to_conversation env now m cid f).2.countP isSendAttempt = 2
    ∧ (env.sendOk c1 = false → env.sendOk c2 = true →
        WSEvent.delivered c2 f ∈ (broadcast_to_conversation env now m cid f).2
        ∧ get_conversation_clients_count
            (broadcast_to_conversation env now m cid f).1 cid = 1) := by
  have hR : roomConns m cid = [(c1, t1), (c2, t2)] :=
    roomConns_eq_of_alGet m cid _ hroom
  constructor
  · rw [broadcast_attempt_count, hR]
    rfl
  · intro h1 h2
    constructor
    · exact broadcast_delivered_mem env now m cid f c2 t2 (by rw [hR]; simp) h2
    · have hnd : ((roomConns m cid).map Prod.fst).Nodup := by
        rw [hR]
        simp [hne]
      have hspec := (broadcast_spec env now m cid f houter hnd).1
      rw [get_conversation_clients_count, hspec, hR]
      simp [List.filter_cons, h1, h2]

/-- Witness for C6: connections `1` (send fails) and `2` (send succeeds) in
room `"c1"`; two attempts, `2` receives the payload, room keeps one client. -/
theorem C6_witness :
    (broadcast_to_conversation ⟨fun c => decide (c = 2)⟩ 100
        ⟨[("c1", [(1, 0), (2, 0)])], 45⟩ "c1" (.payload "hello")).2.countP isSendAttempt = 2
    ∧ WSEvent.delivered 2 (.payload "hello") ∈
        (broadcast_to_conversation ⟨fun c => decide (c = 2)⟩ 100
          ⟨[("c1", [(1, 0), (2, 0)])], 45⟩ "c1" (.payload "hello")).2
    ∧ get_conversation_clients_count
        (broadcast_to_conversation ⟨fun c => decide (c = 2)⟩ 100
          ⟨[("c1", [(1, 0), (2, 0)])], 45⟩ "c1" (.payload "hello")).1 "c1" = 1 := by
  have h := C6_broadcast_partial_failure ⟨fun c => decide (c = 2)⟩ 100
    ⟨[("c1", [(1, 0), (2, 0)])], 45⟩ "c1" (.payload "hello") 1 2 0 0
    (by decide) (by with_unfolding_all decide) (by decide)
  exact ⟨h.1, (h.2 rfl rfl).1, (h.2 rfl rfl).2⟩

/-! ### Stale-sweep lemmas -/

theorem alErase_sublist {α β : Type} [DecidableEq α] (l : List (α × β)) (k : α) :
    (alErase l k).Sublist l := by
  induction l with
  | nil => simp [alErase]
  | cons kv rest ih =>
      obtain ⟨k0, v0⟩ := kv
      by_cases hk : k0 = k
      · simp only [alErase, hk, if_true]
        exact (List.sublist_cons_self _ _)
      · simp only [alErase, hk, if_false]
        exact ih.cons₂ _

theorem alGet_of_mem_nodup {α β : Type} [DecidableEq α]
    (l : List (α × β)) (k : α) (v : β) (hnd : (l.map Prod.fst).Nodup)
    (h : (k, v) ∈ l) : alGet l k = some v := by
  induction l with
  | nil => exact absurd h (List.not_mem_nil _)
  | cons kv rest ih =>
      obtain ⟨k0, v0⟩ := kv
      simp only [List.map_cons, List.nodup_cons] at hnd
      rcases List.mem_cons.mp h with he | hm
      · rw [Prod.mk.injEq] at he
        simp [alGet, he.1, he.2]
      · have hk : k0 ≠ k := by
          intro hk0
          apply hnd.1
          subst hk0
          simpa using List.mem_map_of_mem Prod.fst hm
        simp [alGet, hk, ih hnd.2 hm]

theorem mem_unique_of_nodup_fst {α β : Type} [DecidableEq α]
    (l : List (α × β)) (k : α) (v v' : β) (hnd : (l.map Prod.fst).Nodup)
    (h1 : (k, v) ∈ l) (h2 : (k, v') ∈ l) : v = v' := by
  have e1 := alGet_of_mem_nodup l k v hnd h1
  have e2 := alGet_of_mem_nodup l k v' hnd h2
  rw [e1] at e2
  exact Option.some.inj e2

theorem map_fst_stamp (l : List (ConnId × ℚ)) (now : ℚ) :
    (l.map (fun ct => (ct.1, now))).map Prod.fst = l.map Prod.fst := by
  rw [List.map_map]
  rfl

theorem staleList_mem_intro (m : WSManager) (now : ℚ) (cid : String)
    (c : ConnId) (t : ℚ) (hmem : (c, t) ∈ roomConns m cid)
    (hstale : now - t > m.connection_timeout) : (cid, c) ∈ staleList m now := by
  unfold staleList
  rw [List.mem_flatten]
  cases hg : alGet m.active_connections cid with
  | none =>
      rw [roomConns, hg] at hmem
      exact absurd hmem (List.not_mem_nil _)
  | some room =>
      have hr : roomConns m cid = room := roomConns_eq_of_alGet m cid room hg
      rw [hr] at hmem
      refine ⟨(room.filter (fun ct => now - ct.2 > m.connection_timeout)).map
        (fun ct => (cid, ct.1)), ?_, ?_⟩
      · exact List.mem_map_of_mem _ (alGet_mem _ _ _ hg)
      · exact List.mem_map.mpr ⟨(c, t), List.mem_filter.mpr ⟨hmem, by simpa using hstale⟩, rfl⟩

theorem staleList_mem_elim (m : WSManager) (now : ℚ) (cid : String) (c : ConnId)
    (houter : (m.active_connections.map Prod.fst).Nodup)
    (h : (cid, c) ∈ staleList m now) :
    ∃ t, (c, t) ∈ roomConns m cid ∧ now - t > m.connection_timeout := by
  unfold staleList at h
  rw [List.mem_flatten] at h
  obtain ⟨sub, hsub, hmem⟩ := h
  rw [List.mem_map] at hsub
  obtain ⟨⟨cid', room'⟩, hentry, hsubeq⟩ := hsub
  rw [← hsubeq] at hmem
  rw [List.mem_map] at hmem
  obtain ⟨ct, hct, hcteq⟩ := hmem
  have hcid : cid' = cid := congrArg Prod.fst hcteq
  have hc : ct.1 = c := congrArg Prod.snd hcteq
  subst hcid
  have hget : alGet m.active_connections cid' = some room' :=
    alGet_of_mem_nodup _ _ _ houter hentry
  have hr : roomConns m cid' = room' := roomConns_eq_of_alGet m cid' room' hget
  obtain ⟨hmem', hstale⟩ := List.mem_filter.mp hct
  refine ⟨ct.2, ?_, by simpa using hstale⟩
  rw [hr]
  rw [← hc]
  exact hmem'

/-- Effect of one eviction step of `remove_stale_connections` when every
still-registered connection's sends succeed: the target connection is
removed from its room, the survivors of that room get their heartbeats
refreshed by the status broadcast, other rooms are untouched. -/
theorem sweepStep_spec (env : WSEnv) (now : ℚ) (m : WSManager)
    (evs : List WSEvent) (p : String × ConnId)
    (houter : (m.active_connections.map Prod.fst).Nodup)
    (hnd : ∀ cid, ((roomConns m cid).map Prod.fst).Nodup)
    (hok : ∀ cid c, c ∈ (roomConns m cid).map Prod.fst → env.sendOk c = true) :
    roomConns (sweepStep env now (m, evs) p).1 p.1
        = (alErase (roomConns m p.1) p.2).map (fun ct => (ct.1, now))
    ∧ (∀ cid', cid' ≠ p.1 →
        roomConns (sweepStep env now (m, evs) p).1 cid' = roomConns m cid')
    ∧ ((sweepStep env now (m, evs) p).1.active_connections.map Prod.fst).Nodup
    ∧ (∀ cid, ((roomConns (sweepStep env now (m, evs) p).1 cid).map Prod.fst).Nodup)
    ∧ (∀ cid c, c ∈ (roomConns (sweepStep env now (m, evs) p).1 cid).map Prod.fst →
        c ∈ (roomConns m cid).map Prod.fst)
    ∧ (sweepStep env now (m, evs) p).1.connection_timeout = m.connection_timeout
    ∧ WSEvent.sendAttempt p.2
        (.error "heartbeat_timeout" "Connection closed due to inactivity.")
        ∈ (sweepStep env now (m, evs) p).2
    ∧ WSEvent.closedConn p.2 1001 ∈ (sweepStep env now (m, evs) p).2
    ∧ (∃ tail, (sweepStep env now (m, evs) p).2 = evs ++ tail) := by
  have houter1 : ((wsDisconnect m p.2 p.1).active_connections.map Prod.fst).Nodup :=
    wsDisconnect_outer_nodup m p.2 p.1 houter
  have hroom1 : roomConns (wsDisconnect m p.2 p.1) p.1
      = alErase (roomConns m p.1) p.2 := wsDisconnect_room m p.2 p.1 houter
  have hnd1 : ((roomConns (wsDisconnect m p.2 p.1) p.1).map Prod.fst).Nodup := by
    rw [hroom1, alErase_map_fst]
    exact (hnd p.1).erase p.2
  obtain ⟨broom, bframe, bouter, btime⟩ :=
    broadcast_spec env now (wsDisconnect m p.2 p.1) p.1
      (.status p.1 (get_conversation_clients_count (wsDisconnect m p.2 p.1) p.1))
      houter1 hnd1
  have hfilter : (roomConns (wsDisconnect m p.2 p.1) p.1).filter
      (fun ct => env.sendOk ct.1) = roomConns (wsDisconnect m p.2 p.1) p.1 := by
    rw [List.filter_eq_self]
    intro ct hct
    rw [hroom1] at hct
    have : ct ∈ roomConns m p.1 := (alErase_sublist _ _).mem hct
    exact hok p.1 ct.1 (List.mem_map_of_mem Prod.fst this)
  have hstep1 : (sweepStep env now (m, evs) p).1
      = (broadcast_to_conversation env now (wsDisconnect m p.2 p.1) p.1
          (.status p.1 (get_conversation_clients_count (wsDisconnect m p.2 p.1) p.1))).1 :=
    rfl
  have hstep2 : (sweepStep env now (m, evs) p).2
      = evs ++ send_error env p.2 "heartbeat_timeout"
          "Connection closed due to inactivity." ++ [WSEvent.closedConn p.2 1001]
        ++ (broadcast_to_conversation env now (wsDisconnect m p.2 p.1) p.1
            (.status p.1 (get_conversation_clients_count (wsDisconnect m p.2 p.1) p.1))).2 :=
    rfl
  have hattempt : WSEvent.sendAttempt p.2
      (.error "heartbeat_timeout" "Connection closed due to inactivity.")
      ∈ send_error env p.2 "heartbeat_timeout"
          "Connection closed due to inactivity." := by
    unfold send_error send_personal_message
    by_cases hs : env.sendOk p.2 <;> simp [hs]
  refine ⟨?_, ?_, ?_, ?_, ?_, ?_, ?_, ?_, ?_⟩
  · rw [hstep1, broom, hfilter, hroom1]
  · intro cid' h
    rw [hstep1, bframe cid' h,
        wsDisconnect_room_ne m p.2 p.1 cid' (fun hh => h hh.symm)]
  · rw [hstep1]
    exact bouter
  · intro cid
    by_cases hcid : cid = p.1
    · subst hcid
      rw [hstep1, broom, hfilter, hroom1, map_fst_stamp, alErase_map_fst]
      exact (hnd p.1).erase p.2
    · rw [hstep1, bframe cid hcid,
          wsDisconnect_room_ne m p.2 p.1 cid (fun hh => hcid hh.symm)]
      exact hnd cid
  · intro cid c hc
    by_cases hcid : cid = p.1
    · subst hcid
      rw [hstep1, broom, hfilter, hroom1, map_fst_stamp, alErase_map_fst] at hc
      exact (List.erase_sublist _ _).mem hc
    · rw [hstep1, bframe cid hcid,
          wsDisconnect_room_ne m p.2 p.1 cid (fun hh => hcid hh.symm)] at hc
      exact hc
  · rw [hstep1, btime, wsDisconnect_timeout]
  · rw [hstep2]
    simp only [List.mem_append]
    exact Or.inl (Or.inl (Or.inr hattempt))
  · rw [hstep2]
    simp
  · exact ⟨send_error env p.2 "heartbeat_timeout"
        "Connection closed due to inactivity." ++ [WSEvent.closedConn p.2 1001]
        ++ (broadcast_to_conversation env now (wsDisconnect m p.2 p.1) p.1
            (.status p.1 (get_conversation_clients_count (wsDisconnect m p.2 p.1) p.1))).2,
      by rw [hstep2]; simp⟩

theorem sweepStep_evs_prefix (env : WSEnv) (now : ℚ) (m : WSManager)
    (evs : List WSEvent) (p : String × ConnId) :
    ∃ tail, (sweepStep env now (m, evs) p).2 = evs ++ tail :=
  ⟨send_error env p.2 "heartbeat_timeout" "Connection closed due to inactivity."
      ++ [WSEvent.closedConn p.2 1001]
      ++ (send_conversation_status env now (wsDisconnect m p.2 p.1) p.1).2,
    by simp [sweepStep]⟩

theorem sweepStep_events (env : WSEnv) (now : ℚ) (m : WSManager)
    (evs : List WSEvent) (p : String × ConnId) :
    WSEvent.sendAttempt p.2
      (.error "heartbeat_timeout" "Connection closed due to inactivity.")
      ∈ (sweepStep env now (m, evs) p).2
    ∧ WSEvent.closedConn p.2 1001 ∈ (sweepStep env now (m, evs) p).2 := by
  have hattempt : WSEvent.sendAttempt p.2
      (.error "heartbeat_timeout" "Connection closed due to inactivity.")
      ∈ send_error env p.2 "heartbeat_timeout"
          "Connection closed due to inactivity." := by
    unfold send_error send_personal_message
    by_cases hs : env.sendOk p.2 <;> simp [hs]
  constructor
  · show _ ∈ evs ++ send_error env p.2 "heartbeat_timeout"
        "Connection closed due to inactivity." ++ [WSEvent.closedConn p.2 1001]
        ++ (broadcast_to_conversation env now (wsDisconnect m p.2 p.1) p.1
            (.status p.1 (get_conversation_clients_count (wsDisconnect m p.2 p.1) p.1))).2
    simp only [List.mem_append]
    exact Or.inl (Or.inl (Or.inr hattempt))
  · show _ ∈ evs ++ send_error env p.2 "heartbeat_timeout"
        "Connection closed due to inactivity." ++ [WSEvent.closedConn p.2 1001]
        ++ (broadcast_to_conversation env now (wsDisconnect m p.2 p.1) p.1
            (.status p.1 (get_conversation_clients_count (wsDisconnect m p.2 p.1) p.1))).2
    simp

theorem sweep_fold_evs_prefix (env : WSEnv) (now : ℚ)
    (pairs : List (String × ConnId)) : ∀ (m : WSManager) (evs : List WSEvent),
    ∃ tail, (pairs.foldl (sweepStep env now) (m, evs)).2 = evs ++ tail := by
  induction pairs with
  | nil => exact fun m evs => ⟨[], by simp⟩
  | cons p ps ih =>
      intro m evs
      rw [List.foldl_cons]
      obtain ⟨t1, ht1⟩ := sweepStep_evs_prefix env now m evs p
      obtain ⟨t2, ht2⟩ := ih (sweepStep env now (m, evs) p).1
        (sweepStep env now (m, evs) p).2
      refine ⟨t1 ++ t2, ?_⟩
      rw [ht2, ht1, List.append_assoc]

theorem sweep_fold_events (env : WSEnv) (now : ℚ)
    (pairs : List (String × ConnId)) : ∀ (m : WSManager) (evs : List WSEvent)
    (p : String × ConnId), p ∈ pairs →
    WSEvent.sendAttempt p.2
      (.error "heartbeat_timeout" "Connection closed due to inactivity.")
      ∈ (pairs.foldl (sweepStep env now) (m, evs)).2
    ∧ WSEvent.closedConn p.2 1001 ∈ (pairs.foldl (sweepStep env now) (m, evs)).2 := by
  induction pairs with
  | nil => intro m evs p hp; exact absurd hp (List.not_mem_nil _)
  | cons q ps ih =>
      intro m evs p hp
      rw [List.foldl_cons]
      rcases List.mem_cons.mp hp with he | hm
      · subst he
        obtain ⟨h1, h2⟩ := sweepStep_events env now m evs p
        obtain ⟨tail, htail⟩ := sweep_fold_evs_prefix env now ps
          (sweepStep env now (m, evs) p).1 (sweepStep env now (m, evs) p).2
        rw [htail]
        exact ⟨List.mem_append.mpr (Or.inl h1), List.mem_append.mpr (Or.inl h2)⟩
      · exact ih (sweepStep env now (m, evs) q).1 (sweepStep env now (m, evs) q).2 p hm

/-- The state effect of the whole eviction loop: each room's connection-id
list is its original list minus the connections swept for that room (all
sends assumed to succeed, which the scenario of spec §8 presumes). -/
theorem sweep_fold_room_ids (env : WSEnv) (now : ℚ)
    (pairs : List (String × ConnId)) : ∀ (m : WSManager) (evs : List WSEvent),
    (m.active_connections.map Prod.fst).Nodup →
    (∀ cid, ((roomConns m cid).map Prod.fst).Nodup) →
    (∀ cid c, c ∈ (roomConns m cid).map Prod.fst → env.sendOk c = true) →
    ∀ cid, (roomConns (pairs.foldl (sweepStep env now) (m, evs)).1 cid).map Prod.fst
        = ((roomConns m cid).map Prod.fst).filter (fun c => (cid, c) ∉ pairs) := by
  induction pairs with
  | nil =>
      intro m evs _ _ _ cid
      simp
  | cons p ps ih =>
      intro m evs houter hnd hok cid
      rw [List.foldl_cons]
      obtain ⟨sroom, sframe, souter, snd, ssub, _, _, _, _⟩ :=
        sweepStep_spec env now m evs p houter hnd hok
      have hok' : ∀ cid' c, c ∈ (roomConns (sweepStep env now (m, evs) p).1 cid').map
          Prod.fst → env.sendOk c = true :=
        fun cid' c hc => hok cid' c (ssub cid' c hc)
      have ihres := ih (sweepStep env now (m, evs) p).1 (sweepStep env now (m, evs) p).2
        souter snd hok' cid
      rw [ihres]
      by_cases hcid : cid = p.1
      · subst hcid
        rw [sroom, map_fst_stamp, alErase_map_fst,
            (hnd p.1).erase_eq_filter p.2, List.filter_filter]
        refine List.filter_congr ?_
        intro c _
        by_cases h2 : c = p.2
        · subst h2
          simp [Prod.ext_iff]
        · by_cases h3 : (p.1, c) ∈ ps <;> simp [Prod.ext_iff, h2, h3]
      · rw [sframe cid hcid]
        refine List.filter_congr ?_
        intro c _
        have : ((cid, c) ∈ p :: ps) ↔ ((cid, c) ∈ ps) := by
          rw [List.mem_cons]
          constructor
          · rintro (he | hm)
            · exact absurd (congrArg Prod.fst he) hcid
            · exact hm
          · exact Or.inr
        simp [this]

theorem length_filter_split {α : Type} (l : List α) (p : α → Bool) :
    (l.filter p).length + (l.filter (fun a => !(p a))).length = l.length := by
  induction l with
  | nil => rfl
  | cons a t ih =>
      by_cases h : p a <;> simp [List.filter_cons, h] <;> omega

theorem filter_map_comm {α β : Type} (l : List α) (f : α → β) (p : β → Bool) :
    (l.map f).filter p = (l.filter (fun x => p (f x))).map f := by
  induction l with
  | nil => rfl
  | cons a t ih =>
      by_cases h : p (f a) <;> simp [List.filter_cons, h, ih]

/-- C7: with every surviving connection's sends succeeding, every registered
connection whose last heartbeat is strictly older than `connection_timeout`
at sweep time is sent a `heartbeat_timeout` error frame, closed (code 1001)
and removed from its room; and every room's client count drops by exactly
its number of evicted connections. -/
theorem C7_heartbeat_eviction (env : WSEnv) (now : ℚ) (m : WSManager)
    (houter : (m.active_connections.map Prod.fst).Nodup)
    (hnd : ∀ cid, ((roomConns m cid).map Prod.fst).Nodup)
    (hok : ∀ cid c, c ∈ (roomConns m cid).map Prod.fst → env.sendOk c = true) :
    (∀ cid c t, (c, t) ∈ roomConns m cid → now - t > m.connection_timeout →
        WSEvent.sendAttempt c
            (.error "heartbeat_timeout" "Connection closed due to inactivity.")
          ∈ (remove_stale_connections env now m).2
        ∧ WSEvent.closedConn c 1001 ∈ (remove_stale_connections env now m).2
        ∧ c ∉ (roomConns (remove_stale_connections env now m).1 cid).map Prod.fst)
    ∧ (∀ cid, get_conversation_clients_count (remove_stale_connections env now m).1 cid
        = get_conversation_clients_count m cid
          - ((roomConns m cid).filter
              (fun ct => now - ct.2 > m.connection_timeout)).length) := by
  have hids := sweep_fold_room_ids env now (staleList m now) m [] houter hnd hok
  constructor
  · intro cid c t hmem hstale
    have hp : (cid, c) ∈ staleList m now := staleList_mem_intro m now cid c t hmem hstale
    obtain ⟨h1, h2⟩ := sweep_fold_events env now (staleList m now) m [] (cid, c) hp
    refine ⟨h1, h2, ?_⟩
    rw [show (remove_stale_connections env now m).1
          = ((staleList m now).foldl (sweepStep env now) (m, [])).1 from rfl, hids cid]
    intro hcmem
    have := (List.mem_filter.mp hcmem).2
    simp only [decide_eq_true_eq] at this
    exact this hp
  · intro cid
    rw [get_conversation_clients_count, get_conversation_clients_count,
        ← List.length_map (roomConns ((remove_stale_connections env now m).1) cid) Prod.fst,
        show (remove_stale_connections env now m).1
          = ((staleList m now).foldl (sweepStep env now) (m, [])).1 from rfl,
        hids cid, filter_map_comm]
    have hcongr : (roomConns m cid).filter (fun ct => (cid, ct.1) ∉ staleList m now)
        = (roomConns m cid).filter (fun ct => ¬ (now - ct.2 > m.connection_timeout)) := by
      refine List.filter_congr ?_
      intro ct hct
      by_cases hstale : now - ct.2 > m.connection_timeout
      · have : (cid, ct.1) ∈ staleList m now :=
          staleList_mem_intro m now cid ct.1 ct.2 hct hstale
        simp [this, hstale]
      · have hnot : (cid, ct.1) ∉ staleList m now := by
          intro hin
          obtain ⟨t', hmem', hstale'⟩ := staleList_mem_elim m now cid ct.1 houter hin
          have : t' = ct.2 := by
            have h1 : (ct.1, t') ∈ roomConns m cid := hmem'
            have h2 : (ct.1, ct.2) ∈ roomConns m cid := hct
            exact mem_unique_of_nodup_fst _ _ _ _ (hnd cid) h1 h2
          rw [this] at hstale'
          exact hstale hstale'
        simp [hnot, hstale]
    rw [hcongr, List.length_map]
    have hconv : (roomConns m cid).filter
        (fun ct => ¬ (now - ct.2 > m.connection_timeout))
        = (roomConns m cid).filter
            (fun ct => !(decide (now - ct.2 > m.connection_timeout))) := by
      refine List.filter_congr ?_
      intro ct _
      exact decide_not
    rw [hconv]
    have hsplit := length_filter_split (roomConns m cid)
      (fun ct => decide (now - ct.2 > m.connection_timeout))
    omega

/-- Witness for C7: room `"c1"` holds connection `1` (heartbeat at 0, stale
at sweep time 100 with timeout 45) and connection `2` (heartbeat at 60,
fresh).  Sweeping evicts `1`, sends it the error frame, and the count drops
from 2 to 1. -/
theorem C7_witness :
    WSEvent.sendAttempt 1
        (.error "heartbeat_timeout" "Connection closed due to inactivity.")
      ∈ (remove_stale_connections ⟨fun _ => true⟩ 100
          ⟨[("c1", [(1, 0), (2, 60)])], 45⟩).2
    ∧ WSEvent.closedConn 1 1001 ∈ (remove_stale_connections ⟨fun _ => true⟩ 100
          ⟨[("c1", [(1, 0), (2, 60)])], 45⟩).2
    ∧ 1 ∉ (roomConns (remove_stale_connections ⟨fun _ => true⟩ 100
          ⟨[("c1", [(1, 0), (2, 60)])], 45⟩).1 "c1").map Prod.fst
    ∧ get_conversation_clients_count (remove_stale_connections ⟨fun _ => true⟩ 100
          ⟨[("c1", [(1, 0), (2, 60)])], 45⟩).1 "c1" = 1 := by
  have hnd : ∀ cid, ((roomConns (⟨[("c1", [(1, 0), (2, 60)])], 45⟩ : WSManager)
      cid).map Prod.fst).Nodup := by
    intro cid
    by_cases hc : "c1" = cid <;> simp [roomConns, alGet, hc]
  have h := C7_heartbeat_eviction ⟨fun _ => true⟩ 100
    ⟨[("c1", [(1, 0), (2, 60)])], 45⟩ (by decide) hnd (fun _ _ _ => rfl)
  obtain ⟨h1, h2, h3⟩ := h.1 "c1" 1 0 (by with_unfolding_all decide)
    (by with_unfolding_all decide)
  refine ⟨h1, h2, h3, ?_⟩
  have h4 := h.2 "c1"
  rw [h4]
  with_unfolding_all decide

/-- C10: a successful broadcast send to a connection refreshes its heartbeat
to the broadcast time; consequently a connection that never sends inbound
traffic survives a stale-connection sweep run within one timeout window of
that broadcast. -/
theorem C10_broadcast_refreshes_heartbeat (env : WSEnv) (now now' : ℚ)
    (m : WSManager) (cid : String) (f : Frame) (c : ConnId) (t : ℚ)
    (houter : (m.active_connections.map Prod.fst).Nodup)
    (hnd : ∀ cid', ((roomConns m cid').map Prod.fst).Nodup)
    (hok : ∀ cid' c', c' ∈ (roomConns m cid').map Prod.fst → env.sendOk c' = true)
    (hmem : (c, t) ∈ roomConns m cid)
    (hwin : ¬ (now' - now > m.connection_timeout)) :
    (c, now) ∈ roomConns (broadcast_to_conversation env now m cid f).1 cid
    ∧ c ∈ (roomConns (remove_stale_connections env now'
          (broadcast_to_conversation env now m cid f).1).1 cid).map Prod.fst := by
  have hsend : env.sendOk c = true := hok cid c (List.mem_map_of_mem Prod.fst hmem)
  obtain ⟨broom, bframe, bouter, btime⟩ := broadcast_spec env now m cid f houter (hnd cid)
  have hmem1 : (c, now) ∈ roomConns (broadcast_to_conversation env now m cid f).1 cid := by
    rw [broom]
    exact List.mem_map.mpr ⟨(c, t), List.mem_filter.mpr ⟨hmem, by simpa using hsend⟩, rfl⟩
  refine ⟨hmem1, ?_⟩
  have hnd1 : ∀ cid', ((roomConns (broadcast_to_conversation env now m cid f).1
      cid').map Prod.fst).Nodup := by
    intro cid'
    by_cases hc : cid' = cid
    · subst hc
      rw [broom, map_fst_stamp]
      exact filter_ids_nodup _ _ (hnd cid')
    · rw [bframe cid' hc]
      exact hnd cid'
  have hsub1 : ∀ cid' c', c' ∈ (roomConns (broadcast_to_conversation env now m cid f).1
      cid').map Prod.fst → c' ∈ (roomConns m cid').map Prod.fst := by
    intro cid' c' hc'
    by_cases hc : cid' = cid
    · subst hc
      rw [broom, map_fst_stamp] at hc'
      exact (List.Sublist.map Prod.fst (List.filter_sublist _)).mem hc'
    · rw [bframe cid' hc] at hc'
      exact hc'
  have hok1 : ∀ cid' c', c' ∈ (roomConns (broadcast_to_conversation env now m cid f).1
      cid').map Prod.fst → env.sendOk c' = true :=
    fun cid' c' hc' => hok cid' c' (hsub1 cid' c' hc')
  have hids := sweep_fold_room_ids env now'
    (staleList (broadcast_to_conversation env now m cid f).1 now')
    (broadcast_to_conversation env now m cid f).1 [] bouter hnd1 hok1 cid
  rw [show (remove_stale_connections env now'
        (broadcast_to_conversation env now m cid f).1).1
      = ((staleList (broadcast_to_conversation env now m cid f).1 now').foldl
          (sweepStep env now')
          ((broadcast_to_conversation env now m cid f).1, [])).1 from rfl, hids]
  have hnot : (cid, c) ∉ staleList (broadcast_to_conversation env now m cid f).1 now' := by
    intro hin
    obtain ⟨t', hmem', hstale'⟩ := staleList_mem_elim _ now' cid c bouter hin
    have ht' : t' = now := mem_unique_of_nodup_fst _ _ _ _ (hnd1 cid) hmem' hmem1
    rw [ht', btime] at hstale'
    exact hwin hstale'
  refine List.mem_filter.mpr ⟨List.mem_map_of_mem Prod.fst hmem1, by simpa using hnot⟩

/-- Witness for C10: connection `7`, last inbound heartbeat at time 0, gets
a successful broadcast at time 50; the sweep at time 90 (40 seconds later,
within the 45-second timeout) keeps it in the room, even though its original
heartbeat is 90 seconds old. -/
theorem C10_witness :
    ((7 : ConnId), (50 : ℚ)) ∈ roomConns
        (broadcast_to_conversation ⟨fun _ => true⟩ 50 ⟨[("c1", [(7, 0)])], 45⟩ "c1"
          (.payload "keepalive")).1 "c1"
    ∧ (7 : ConnId) ∈ (roomConns (remove_stale_connections ⟨fun _ => true⟩ 90
        (broadcast_to_conversation ⟨fun _ => true⟩ 50 ⟨[("c1", [(7, 0)])], 45⟩ "c1"
          (.payload "keepalive")).1).1 "c1").map Prod.fst := by
  have hnd : ∀ cid', ((roomConns (⟨[("c1", [(7, 0)])], 45⟩ : WSManager)
      cid').map Prod.fst).Nodup := by
    intro cid'
    by_cases hc : "c1" = cid' <;> simp [roomConns, alGet, hc]
  exact C10_broadcast_refreshes_heartbeat ⟨fun _ => true⟩ 50 90
    ⟨[("c1", [(7, 0)])], 45⟩ "c1" (.payload "keepalive") 7 0
    (by decide) hnd (fun _ _ _ => rfl) (by with_unfolding_all decide)
    (by with_unfolding_all decide)

/-! ## ResponseCache (`response_cache.py`)

`_generate_cache_key` hashes, with SHA-256, the compact JSON dump
(`sort_keys=True`, separators `(",", ":")`, `ensure_ascii` default) of
`{"messages": [{"content": ..., "role": ...}, ...], "params": {"max_tokens":
..., "stream": false, "temperature": ...}, "provider": ...}` and keeps the
first 16 hex digits.  SHA-256 is implemented below over byte lists; since
`ensure_ascii` JSON output is pure ASCII, UTF-8 encoding is byte-per-char.
Python floats are not modelled: a float-valued `temperature` is carried as
the decimal string `repr`/`json.dumps` renders it with (e.g. `"0.7"`), which
is injective on distinct floats. -/

structure ChatMessage where
  role : String
  content : String
  deriving DecidableEq, Repr

/-- The projection of the `persona_params` dict that `_generate_cache_key`
reads: `temperature` (float, default 0.7, carried as its JSON rendering) and
`max_tokens` (int, default 150).  `none` = key absent. -/
structure PersonaParams where
  temperature : Option String
  max_tokens : Option Int
  deriving DecidableEq, Repr

structure CacheEntry where
  response : String
  timestamp : ℚ
  deriving DecidableEq, Repr

/-! ### SHA-256 -/

def w32 (x : Nat) : Nat := x % 4294967296

def rotr32 (x n : Nat) : Nat := w32 ((x >>> n) ||| (x <<< (32 - n)))

def not32 (x : Nat) : Nat := x ^^^ 4294967295

def smallSigma0 (x : Nat) : Nat := (rotr32 x 7) ^^^ (rotr32 x 18) ^^^ (x >>> 3)
def smallSigma1 (x : Nat) : Nat := (rotr32 x 17) ^^^ (rotr32 x 19) ^^^ (x >>> 10)
def bigSigma0 (x : Nat) : Nat := (rotr32 x 2) ^^^ (rotr32 x 13) ^^^ (rotr32 x 22)
def bigSigma1 (x : Nat) : Nat := (rotr32 x 6) ^^^ (rotr32 x 11) ^^^ (rotr32 x 25)

/-- The 64 round constants of FIPS 180-4 (decimal). -/
def sha256K : List Nat :=
  [1116352408, 1899447441, 3049323471, 3921009573, 961987163,
   1508970993, 2453635748, 2870763221, 3624381080, 310598401,
   607225278, 1426881987, 1925078388, 2162078206, 2614888103,
   3248222580, 3835390401, 4022224774, 264347078, 604807628,
   770255983, 1249150122, 1555081692, 1996064986, 2554220882,
   2821834349, 2952996808, 3210313671, 3336571891, 3584528711,
   113926993, 338241895, 666307205, 773529912, 1294757372,
   1396182291, 1695183700, 1986661051, 2177026350, 2456956037,
   2730485921, 2820302411, 3259730800, 3345764771, 3516065817,
   3600352804, 4094571909, 275423344, 430227734, 506948616,
   659060556, 883997877, 958139571, 1322822218, 1537002063,
   1747873779, 1955562222, 2024104815, 2227730452, 2361852424,
   2428436474, 2756734187, 3204031479, 3329325298]

/-- The initial hash state of FIPS 180-4 (decimal). -/
def sha256H0 : List Nat :=
  [1779033703, 3144134277, 1013904242, 2773480762,
   1359893119, 2600822924, 528734635, 1541459225]

/-- `len` bytes of `n`, big-endian. -/
def toBytesBE : Nat → Nat → List Nat
  | 0, _ => []
  | len + 1, n => toBytesBE len (n / 256) ++ [n % 256]

def sha256pad (msg : List Nat) : List Nat :=
  let L := msg.length
  let k := (55 + 64 - (L % 64)) % 64
  msg ++ [128] ++ List.replicate k 0 ++ toBytesBE 8 (L * 8)

def bytesToWords : List Nat → List Nat
  | b0 :: b1 :: b2 :: b3 :: rest =>
      (((b0 * 256 + b1) * 256 + b2) * 256 + b3) :: bytesToWords rest
  | _ => []

def extendWords : List Nat → Nat → List Nat
  | ws, 0 => ws
  | ws, fuel + 1 =>
      let n := ws.length
      let w := w32 (ws.getD (n - 16) 0 + smallSigma0 (ws.getD (n - 15) 0)
        + ws.getD (n - 7) 0 + smallSigma1 (ws.getD (n - 2) 0))
      extendWords (ws ++ [w]) fuel

def compressStep (st : Nat × Nat × Nat × Nat × Nat × Nat × Nat × Nat)
    (kw : Nat × Nat) : Nat × Nat × Nat × Nat × Nat × Nat × Nat × Nat :=
  let (a, b, c, d, e, f, g, h) := st
  let S1 := bigSigma1 e
  let ch := (e &&& f) ^^^ (not32 e &&& g)
  let temp1 := w32 (h + S1 + ch + kw.1 + kw.2)
  let S0 := bigSigma0 a
  let maj := (a &&& b) ^^^ (a &&& c) ^^^ (b &&& c)
  let temp2 := w32 (S0 + maj)
  (w32 (temp1 + temp2), a, b, c, w32 (d + temp1), e, f, g)

def compressBlock (H : List Nat) (block : List Nat) : List Nat :=
  let ws := extendWords (bytesToWords block) 48
  let st0 := (H.getD 0 0, H.getD 1 0, H.getD 2 0, H.getD 3 0,
              H.getD 4 0, H.getD 5 0, H.getD 6 0, H.getD 7 0)
  let stf := (sha256K.zip ws).foldl compressStep st0
  match stf with
  | (a, b, c, d, e, f, g, h) =>
      [w32 (H.getD 0 0 + a), w32 (H.getD 1 0 + b), w32 (H.getD 2 0 + c),
       w32 (H.getD 3 0 + d), w32 (H.getD 4 0 + e), w32 (H.getD 5 0 + f),
       w32 (H.getD 6 0 + g), w32 (H.getD 7 0 + h)]

def processBlocks : Nat → List Nat → List Nat → List Nat
  | 0, H, _ => H
  | fuel + 1, H, bytes =>
      if bytes.isEmpty then H
      else processBlocks fuel (compressBlock H (bytes.take 64)) (bytes.drop 64)

def hexChar (n : Nat) : Char :=
  if n < 10 then Char.ofNat (48 + n) else Char.ofNat (87 + n)

def wordToHex (x : Nat) : String :=
  String.mk ((List.range 8).map (fun i => hexChar ((x >>> ((7 - i) * 4)) &&& 15)))

/-- `hashlib.sha256(bytes).hexdigest()`. -/
def sha256hex (msg : List Nat) : String :=
  let padded := sha256pad msg
  let Hf := processBlocks padded.length sha256H0 padded
  String.join (Hf.map wordToHex)

/-! ### `json.dumps(..., sort_keys=True, separators=(",", ":"))` for the
cache-key components -/

def hexDigit4 (n : Nat) : String :=
  String.mk [hexChar ((n >>> 12) &&& 15), hexChar ((n >>> 8) &&& 15),
             hexChar ((n >>> 4) &&& 15), hexChar (n &&& 15)]

/-- CPython `ensure_ascii` JSON string escaping: `"`, `\`, the short control
escapes, `\uXXXX` for other controls and all non-ASCII (surrogate pairs
above the BMP). -/
def jsonEscapeChar (c : Char) : String :=
  if c = '"' then "\\\""
  else if c = '\\' then "\\\\"
  else if c = '\n' then "\\n"
  else if c = '\t' then "\\t"
  else if c = '\r' then "\\r"
  else if c.toNat = 8 then "\\b"
  else if c.toNat = 12 then "\\f"
  else if c.toNat < 32 then "\\u" ++ hexDigit4 c.toNat
  else if c.toNat < 127 then String.singleton c
  else if c.toNat < 65536 then "\\u" ++ hexDigit4 c.toNat
  else
    "\\u" ++ hexDigit4 (55296 + (c.toNat - 65536) / 1024)
      ++ "\\u" ++ hexDigit4 (56320 + (c.toNat - 65536) % 1024)

def jsonString (s : String) : String :=
  "\"" ++ String.join (s.data.map jsonEscapeChar) ++ "\""

/-- One `{"content": ..., "role": ...}` entry of the `messages` component
(keys in sorted order, content stripped as in the source). -/
def messageJson (m : ChatMessage) : String :=
  "\x7b" ++ jsonString "content" ++ ":" ++ jsonString m.content.trim ++ ","
    ++ jsonString "role" ++ ":" ++ jsonString m.role ++ "\x7d"

/-- The deterministic JSON string `_generate_cache_key` hashes. -/
def cacheString (provider_name : String) (messages : List ChatMessage)
    (persona_params : PersonaParams) : String :=
  "\x7b" ++ jsonString "messages" ++ ":["
    ++ String.intercalate "," (messages.map messageJson) ++ "],"
    ++ jsonString "params" ++ ":\x7b"
    ++ jsonString "max_tokens" ++ ":" ++ toString (persona_params.max_tokens.getD 150) ++ ","
    ++ jsonString "stream" ++ ":false,"
    ++ jsonString "temperature" ++ ":" ++ persona_params.temperature.getD "0.7"
    ++ "\x7d," ++ jsonString "provider" ++ ":" ++ jsonString provider_name ++ "\x7d"

/-- ASCII bytes of the (pure-ASCII) cache string. -/
def strBytes (s : String) : List Nat := s.data.map Char.toNat

/-- `ResponseCache._generate_cache_key`. -/
def generate_cache_key (provider_name : String) (messages : List ChatMessage)
    (persona_params : PersonaParams) : String :=
  "cached_response:" ++ provider_name ++ ":"
    ++ (sha256hex (strBytes (cacheString provider_name messages persona_params))).take 16

/-- The redis keyspace backing the cache (TTL expiry not modelled; no claim
spans it). -/
def CacheStore := List (String × CacheEntry)

/-- `ResponseCache.get_cached_response` (backend reachable): a stored entry
is a non-empty dict, hence truthy, and its `"response"` field is returned. -/
def get_cached_response (store : CacheStore) (provider_name : String)
    (messages : List ChatMessage) (persona_params : PersonaParams) : Option String :=
  (alGet store (generate_cache_key provider_name messages persona_params)).map
    CacheEntry.response

/-- `ResponseCache.cache_response` (backend reachable): last write wins. -/
def cache_response (store : CacheStore) (provider_name : String)
    (messages : List ChatMessage) (persona_params : PersonaParams)
    (response : String) (ts : ℚ) : CacheStore :=
  alSet store (generate_cache_key provider_name messages persona_params)
    ⟨response, ts⟩

set_option maxRecDepth 10000 in
/-- C4: storing a response and immediately looking it up with identical
provider, transcript and sampling params returns it (the cache key is a
deterministic function of those inputs); and there are params differing from
the stored ones only in `temperature` for which the lookup misses (the
truncated SHA-256 keys differ). -/
theorem C4_cache_roundtrip :
    (∀ (store : CacheStore) (p : String) (t : List ChatMessage)
        (params : PersonaParams) (r : String) (ts : ℚ),
      get_cached_response (cache_response store p t params r ts) p t params = some r)
    ∧ (∃ (p : String) (t : List ChatMessage) (params params' : PersonaParams)
          (r : String) (ts : ℚ),
        params'.max_tokens = params.max_tokens
        ∧ params'.temperature ≠ params.temperature
        ∧ get_cached_response (cache_response [] p t params r ts) p t params' = none) := by
  constructor
  · intro store p t params r ts
    unfold get_cached_response cache_response
    rw [alGet_alSet_self]
    rfl
  · refine ⟨"demo", [], ⟨some "0.7", none⟩, ⟨some "0.9", none⟩, "R", 0, rfl,
      by decide, ?_⟩
    unfold get_cached_response cache_response
    have hne : generate_cache_key "demo" [] ⟨some "0.7", none⟩
        ≠ generate_cache_key "demo" [] ⟨some "0.9", none⟩ := by decide
    rw [alGet_alSet_ne [] _ _ _ hne]
    rfl

end Chimera
